import Mathlib

/-!
Shallow embedding of the coder/wgtunnel server (tunneld) and its middleware,
together with proofs about the key/hostname codec, the configuration
validator, the registration handlers, the ingress routing decision, the
body-limit reader and the rate-limit key canonicalization.

Conventions:
* Go byte slices and (ASCII) strings are `List Nat`, each element a byte
  value; byte arithmetic that can overflow in Go carries an explicit `% 256`.
* Go `time.Duration` is `Int` (nanoseconds); `netip.Addr` is `GoAddr`;
  `netip.Prefix` is `Cidr` (its `Bits()` is an `Int`, `-1` for the zero value).
* Fallible Go functions return `Option` or `Except`.
-/

set_option maxRecDepth 10000

/-- ASCII byte values of a string literal. -/
def strBytes (s : String) : List Nat := s.toList.map Char.toNat

/-- Go `strings.ToLower` on an ASCII byte. -/
def lowerByte (c : Nat) : Nat := if 65 ≤ c ∧ c ≤ 90 then c + 32 else c

/-- Go `strings.ToUpper` on an ASCII byte. -/
def upperByte (c : Nat) : Nat := if 97 ≤ c ∧ c ≤ 122 then c - 32 else c

/-- Go `strings.ToLower` (ASCII). -/
def lowerStr (s : List Nat) : List Nat := s.map lowerByte

/-- Go `strings.ToUpper` (ASCII). -/
def upperStr (s : List Nat) : List Nat := s.map upperByte

/-! ### encoding/hex (used by the legacy hostname label) -/

/-- Go `encoding/hex` `hextable`. -/
def hexTable : List Nat := strBytes ("0123456789abcdef")

/-- Go `hex.EncodeToString`: each byte `v` becomes `hextable[v>>4], hextable[v&0x0f]`. -/
def hexEncode : List Nat → List Nat
  | [] => []
  | v :: rest => hexTable.getD (v >>> 4) 0 :: hexTable.getD (v &&& 15) 0 :: hexEncode rest

/-- Go `encoding/hex` `fromHexChar`. -/
def fromHexChar (c : Nat) : Option Nat :=
  if 48 ≤ c ∧ c ≤ 57 then some (c - 48)
  else if 97 ≤ c ∧ c ≤ 102 then some (c - 97 + 10)
  else if 65 ≤ c ∧ c ≤ 70 then some (c - 65 + 10)
  else none

/-- Go `hex.DecodeString`: pairs of hex digits, `(a << 4) | b`; odd length or a
bad digit is an error. -/
def hexDecode : List Nat → Option (List Nat)
  | [] => some []
  | [_] => none
  | c1 :: c2 :: rest =>
    match fromHexChar c1, fromHexChar c2, hexDecode rest with
    | some a, some b, some tail => some (((a <<< 4) ||| b) :: tail)
    | _, _, _ => none

/-! ### encoding/base32, `base32.HexEncoding.WithPadding(base32.NoPadding)`
(the `newHostnameEncoder` of tunneld/options.go) -/

/-- The base32-hex alphabet. -/
def b32alpha : List Nat := strBytes ("0123456789ABCDEFGHIJKLMNOPQRSTUV")

/-- Emission of one 5-bit group: Go `enc.encode[b[i]&31]`. -/
def b32char (v : Nat) : Nat := b32alpha.getD (v &&& 31) 0

/-- Go `base32.Encoding.Encode` with `NoPadding`, specialized to the
base32-hex alphabet.  Each iteration of the Go loop unpacks up to 5 source
bytes into the 5-bit groups `b[0..7]` (the `switch len(src)` with
fallthrough) and emits one character per group that fits in the output. -/
def b32encode : List Nat → List Nat
  | [] => []
  | [s0] =>
    [b32char (s0 >>> 3),
     b32char ((s0 <<< 2) % 256 &&& 31)]
  | [s0, s1] =>
    [b32char (s0 >>> 3),
     b32char (((s1 >>> 6) &&& 31) ||| ((s0 <<< 2) % 256 &&& 31)),
     b32char ((s1 >>> 1) &&& 31),
     b32char ((s1 <<< 4) % 256 &&& 31)]
  | [s0, s1, s2] =>
    [b32char (s0 >>> 3),
     b32char (((s1 >>> 6) &&& 31) ||| ((s0 <<< 2) % 256 &&& 31)),
     b32char ((s1 >>> 1) &&& 31),
     b32char (((s2 >>> 4) &&& 31) ||| ((s1 <<< 4) % 256 &&& 31)),
     b32char ((s2 <<< 1) % 256 &&& 31)]
  | [s0, s1, s2, s3] =>
    [b32char (s0 >>> 3),
     b32char (((s1 >>> 6) &&& 31) ||| ((s0 <<< 2) % 256 &&& 31)),
     b32char ((s1 >>> 1) &&& 31),
     b32char (((s2 >>> 4) &&& 31) ||| ((s1 <<< 4) % 256 &&& 31)),
     b32char ((s3 >>> 7) ||| ((s2 <<< 1) % 256 &&& 31)),
     b32char ((s3 >>> 2) &&& 31),
     b32char ((s3 <<< 3) % 256 &&& 31)]
  | s0 :: s1 :: s2 :: s3 :: s4 :: rest =>
    [b32char (s0 >>> 3),
     b32char (((s1 >>> 6) &&& 31) ||| ((s0 <<< 2) % 256 &&& 31)),
     b32char ((s1 >>> 1) &&& 31),
     b32char (((s2 >>> 4) &&& 31) ||| ((s1 <<< 4) % 256 &&& 31)),
     b32char ((s3 >>> 7) ||| ((s2 <<< 1) % 256 &&& 31)),
     b32char ((s3 >>> 2) &&& 31),
     b32char ((s4 >>> 5) ||| ((s3 <<< 3) % 256 &&& 31)),
     b32char (s4 &&& 31)] ++ b32encode rest

/-- Go `enc.decodeMap` for the base32-hex alphabet (0xFF marks an invalid
character). -/
def b32dval (c : Nat) : Nat :=
  if 48 ≤ c ∧ c ≤ 57 then c - 48
  else if 65 ≤ c ∧ c ≤ 86 then c - 65 + 10
  else 255

/-- Go decode `dst[dsti+0] = dbuf[0]<<3 | dbuf[1]>>2` (byte arithmetic). -/
def b32out0 (d0 d1 : Nat) : Nat := ((d0 <<< 3) % 256) ||| (d1 >>> 2)

/-- Go decode `dst[dsti+1] = dbuf[1]<<6 | dbuf[2]<<1 | dbuf[3]>>4`. -/
def b32out1 (d1 d2 d3 : Nat) : Nat :=
  ((d1 <<< 6) % 256) ||| ((d2 <<< 1) % 256) ||| (d3 >>> 4)

/-- Go decode `dst[dsti+2] = dbuf[3]<<4 | dbuf[4]>>1`. -/
def b32out2 (d3 d4 : Nat) : Nat := ((d3 <<< 4) % 256) ||| (d4 >>> 1)

/-- Go decode `dst[dsti+3] = dbuf[4]<<7 | dbuf[5]<<2 | dbuf[6]>>3`. -/
def b32out3 (d4 d5 d6 : Nat) : Nat :=
  ((d4 <<< 7) % 256) ||| ((d5 <<< 2) % 256) ||| (d6 >>> 3)

/-- Go decode `dst[dsti+4] = dbuf[6]<<5 | dbuf[7]`. -/
def b32out4 (d6 d7 : Nat) : Nat := ((d6 <<< 5) % 256) ||| d7

/-- Go `base32.Encoding.DecodeString` with `NoPadding`.  The loop consumes
8-character quantums; a short final quantum of length `dlen` produces the
number of bytes given by the `switch dlen` (lengths 1, 3 and 6 produce no
byte); any character outside the alphabet is a `CorruptInputError`,
modelled as `none`. -/
def b32decode : List Nat → Option (List Nat)
  | [] => some []
  | [c0] =>
    if b32dval c0 == 255 then none else some []
  | [c0, c1] =>
    if (b32dval c0 == 255) || (b32dval c1 == 255) then none
    else some [b32out0 (b32dval c0) (b32dval c1)]
  | [c0, c1, c2] =>
    if (b32dval c0 == 255) || (b32dval c1 == 255) || (b32dval c2 == 255) then none
    else some []
  | [c0, c1, c2, c3] =>
    if (b32dval c0 == 255) || (b32dval c1 == 255) || (b32dval c2 == 255) ||
        (b32dval c3 == 255) then none
    else some [b32out0 (b32dval c0) (b32dval c1),
      b32out1 (b32dval c1) (b32dval c2) (b32dval c3)]
  | [c0, c1, c2, c3, c4] =>
    if (b32dval c0 == 255) || (b32dval c1 == 255) || (b32dval c2 == 255) ||
        (b32dval c3 == 255) || (b32dval c4 == 255) then none
    else some [b32out0 (b32dval c0) (b32dval c1),
      b32out1 (b32dval c1) (b32dval c2) (b32dval c3),
      b32out2 (b32dval c3) (b32dval c4)]
  | [c0, c1, c2, c3, c4, c5] =>
    if (b32dval c0 == 255) || (b32dval c1 == 255) || (b32dval c2 == 255) ||
        (b32dval c3 == 255) || (b32dval c4 == 255) || (b32dval c5 == 255) then none
    else some []
  | [c0, c1, c2, c3, c4, c5, c6] =>
    if (b32dval c0 == 255) || (b32dval c1 == 255) || (b32dval c2 == 255) ||
        (b32dval c3 == 255) || (b32dval c4 == 255) || (b32dval c5 == 255) ||
        (b32dval c6 == 255) then none
    else some [b32out0 (b32dval c0) (b32dval c1),
      b32out1 (b32dval c1) (b32dval c2) (b32dval c3),
      b32out2 (b32dval c3) (b32dval c4),
      b32out3 (b32dval c4) (b32dval c5) (b32dval c6)]
  | c0 :: c1 :: c2 :: c3 :: c4 :: c5 :: c6 :: c7 :: rest =>
    if (b32dval c0 == 255) || (b32dval c1 == 255) || (b32dval c2 == 255) ||
        (b32dval c3 == 255) || (b32dval c4 == 255) || (b32dval c5 == 255) ||
        (b32dval c6 == 255) || (b32dval c7 == 255) then none
    else
      match b32decode rest with
      | none => none
      | some tail =>
        some ([b32out0 (b32dval c0) (b32dval c1),
          b32out1 (b32dval c1) (b32dval c2) (b32dval c3),
          b32out2 (b32dval c3) (b32dval c4),
          b32out3 (b32dval c4) (b32dval c5) (b32dval c6),
          b32out4 (b32dval c6) (b32dval c7)] ++ tail)

/-! ### crypto/sha256 (FIPS 180-4), used for the key-to-address derivation -/

/-- 32-bit rotate right. -/
def rotr32 (n x : Nat) : Nat := ((x >>> n) ||| (x <<< (32 - n))) % 4294967296

/-- SHA-256 round constants. -/
def sha256K : List Nat :=
  [1116352408, 1899447441, 3049323471, 3921009573,
   961987163, 1508970993, 2453635748, 2870763221,
   3624381080, 310598401, 607225278, 1426881987,
   1925078388, 2162078206, 2614888103, 3248222580,
   3835390401, 4022224774, 264347078, 604807628,
   770255983, 1249150122, 1555081692, 1996064986,
   2554220882, 2821834349, 2952996808, 3210313671,
   3336571891, 3584528711, 113926993, 338241895,
   666307205, 773529912, 1294757372, 1396182291,
   1695183700, 1986661051, 2177026350, 2456956037,
   2730485921, 2820302411, 3259730800, 3345764771,
   3516065817, 3600352804, 4094571909, 275423344,
   430227734, 506948616, 659060556, 883997877,
   958139571, 1322822218, 1537002063, 1747873779,
   1955562222, 2024104815, 2227730452, 2361852424,
   2428436474, 2756734187, 3204031479, 3329325298]

/-- SHA-256 initial hash state. -/
def sha256H0 : List Nat :=
  [1779033703, 3144134277, 1013904242, 2773480762,
   1359893119, 2600822924, 528734635, 1541459225]

/-- Big-endian 32-bit words from bytes. -/
def words32 : List Nat → List Nat
  | b0 :: b1 :: b2 :: b3 :: rest =>
    (b0 * 16777216 + b1 * 65536 + b2 * 256 + b3) :: words32 rest
  | _ => []

/-- Big-endian 4-byte encoding of a 32-bit word. -/
def be32 (w : Nat) : List Nat :=
  [w / 16777216 % 256, w / 65536 % 256, w / 256 % 256, w % 256]

/-- Big-endian 8-byte encoding (the SHA-256 length field). -/
def be64 (n : Nat) : List Nat :=
  [n / 72057594037927936 % 256, n / 281474976710656 % 256,
   n / 1099511627776 % 256, n / 4294967296 % 256,
   n / 16777216 % 256, n / 65536 % 256, n / 256 % 256, n % 256]

/-- Message-schedule extension: appends words 16..63 (fuel-driven so that it
reduces in the kernel). -/
def sha256Extend : Nat → List Nat → List Nat
  | 0, w => w
  | n + 1, w =>
    let t := w.length
    let w15 := w.getD (t - 15) 0
    let w2 := w.getD (t - 2) 0
    let s0 := (rotr32 7 w15) ^^^ (rotr32 18 w15) ^^^ (w15 >>> 3)
    let s1 := (rotr32 17 w2) ^^^ (rotr32 19 w2) ^^^ (w2 >>> 10)
    sha256Extend n (w ++ [(w.getD (t - 16) 0 + s0 + w.getD (t - 7) 0 + s1) % 4294967296])

/-- One SHA-256 round on the working state `[a,b,c,d,e,f,g,h]`. -/
def sha256Round (st : List Nat) (kw : Nat × Nat) : List Nat :=
  match st with
  | [a, b, c, d, e, f, g, h] =>
    let S1 := (rotr32 6 e) ^^^ (rotr32 11 e) ^^^ (rotr32 25 e)
    let ch := (e &&& f) ^^^ ((4294967295 - e % 4294967296) &&& g)
    let t1 := (h + S1 + ch + kw.1 + kw.2) % 4294967296
    let S0 := (rotr32 2 a) ^^^ (rotr32 13 a) ^^^ (rotr32 22 a)
    let mj := (a &&& b) ^^^ (a &&& c) ^^^ (b &&& c)
    let t2 := (S0 + mj) % 4294967296
    [(t1 + t2) % 4294967296, a, b, c, (d + t1) % 4294967296, e, f, g]
  | other => other

/-- Compression of one 64-byte block into the hash state. -/
def sha256Compress (h : List Nat) (block : List Nat) : List Nat :=
  let w := sha256Extend 48 (words32 block)
  let fin := (sha256K.zip w).foldl sha256Round h
  List.zipWith (fun x y => (x + y) % 4294967296) h fin

/-- SHA-256 padding: `0x80`, zeros to 56 mod 64, then the 64-bit bit length. -/
def sha256Pad (msg : List Nat) : List Nat :=
  let L := msg.length
  msg ++ [128] ++ List.replicate ((120 - (L + 1) % 64) % 64) 0 ++ be64 (L * 8)

/-- Split into 64-byte blocks (fuel-driven). -/
def chunk64 : Nat → List Nat → List (List Nat)
  | 0, _ => []
  | _, [] => []
  | n + 1, l => l.take 64 :: chunk64 n (l.drop 64)

/-- SHA-256 digest of a byte list. -/
def sha256 (msg : List Nat) : List Nat :=
  let blocks := chunk64 (msg.length + 64) (sha256Pad msg)
  (blocks.foldl sha256Compress sha256H0).foldr (fun w acc => be32 w ++ acc) []

example : hexEncode (sha256 []) =
    strBytes ("e3b0c44298fc1c149afbf4c8996fb92427ae41e4649b934ca495991b7852b855") := by
  decide

example : hexEncode (sha256 (strBytes ("abc"))) =
    strBytes ("ba7816bf8f01cfea414140de5dae2223b00361a396177a9cb410ff61f20015ad") := by
  decide

/-! ### encoding/base64 (std, padded), used by `wgtypes.ParseKey` -/

/-- Value of one character of the standard base64 alphabet. -/
def b64val (c : Nat) : Option Nat :=
  if 65 ≤ c ∧ c ≤ 90 then some (c - 65)
  else if 97 ≤ c ∧ c ≤ 122 then some (c - 97 + 26)
  else if 48 ≤ c ∧ c ≤ 57 then some (c - 48 + 52)
  else if c = 43 then some 62
  else if c = 47 then some 63
  else none

/-- Standard padded base64 decoding (4-character quantums; `=` padding only
in the final quantum). -/
def b64decode : List Nat → Option (List Nat)
  | [] => some []
  | [c0, c1, 61, 61] =>
    match b64val c0, b64val c1 with
    | some v0, some v1 => some [((v0 <<< 2) ||| (v1 >>> 4)) % 256]
    | _, _ => none
  | [c0, c1, c2, 61] =>
    match b64val c0, b64val c1, b64val c2 with
    | some v0, some v1, some v2 =>
      some [((v0 <<< 2) ||| (v1 >>> 4)) % 256, ((v1 <<< 4) ||| (v2 >>> 2)) % 256]
    | _, _, _ => none
  | c0 :: c1 :: c2 :: c3 :: rest =>
    match b64val c0, b64val c1, b64val c2, b64val c3, b64decode rest with
    | some v0, some v1, some v2, some v3, some tail =>
      some (((v0 <<< 2) ||| (v1 >>> 4)) % 256 :: ((v1 <<< 4) ||| (v2 >>> 2)) % 256 ::
        ((v2 <<< 6) ||| v3) % 256 :: tail)
    | _, _, _, _, _ => none
  | _ => none

/-! ### curve25519 scalar-base multiplication (RFC 7748), used by
`wgtypes.Key.PublicKey` to derive the public key of a private key -/

/-- The field order 2^255 - 19. -/
def p25519 : Nat := 57896044618658097711785492504343953926634992332820282019728792003956564819949

/-- Modular exponentiation by repeated squaring (fuel-driven). -/
def powmod : Nat → Nat → Nat → Nat
  | 0, _, _ => 1
  | _ + 1, _, 0 => 1
  | fuel + 1, b, e =>
    let r := powmod fuel (b * b % p25519) (e / 2)
    if e % 2 == 1 then b * r % p25519 else r

/-- One step of the X25519 Montgomery ladder (RFC 7748 section 5), operating
on `(x2, z2, x3, z3, swap)` given the next scalar bit. -/
def x25519Step (st : Nat × Nat × Nat × Nat × Nat) (kt : Nat) : Nat × Nat × Nat × Nat × Nat :=
  let (x2, z2, x3, z3, swap) := st
  let sw := (swap + kt) % 2
  let (x2, x3) := if sw == 1 then (x3, x2) else (x2, x3)
  let (z2, z3) := if sw == 1 then (z3, z2) else (z2, z3)
  let A := (x2 + z2) % p25519
  let AA := A * A % p25519
  let B := (x2 + p25519 - z2) % p25519
  let BB := B * B % p25519
  let E := (AA + p25519 - BB) % p25519
  let C := (x3 + z3) % p25519
  let D := (x3 + p25519 - z3) % p25519
  let DA := D * A % p25519
  let CB := C * B % p25519
  let x3n := (DA + CB) % p25519
  let z3n := (DA + p25519 - CB) % p25519
  ((AA * BB) % p25519, E * ((AA + 121665 * E) % p25519) % p25519,
    x3n * x3n % p25519, z3n * z3n % p25519 * 9 % p25519, kt)

/-- X25519 with the base point u = 9: clamp the 32-byte little-endian scalar
and run the ladder over bits 254..0. -/
def x25519Base (scalarBytes : List Nat) : List Nat :=
  let clamped :=
    (scalarBytes.take 1).map (· &&& 248) ++ (scalarBytes.drop 1).take 30 ++
      (scalarBytes.drop 31).map (fun b => (b &&& 127) ||| 64)
  let k := clamped.foldr (fun b acc => b + 256 * acc) 0
  let bits := ((List.range 255).reverse).map (fun t => (k >>> t) &&& 1)
  let (x2, z2, x3, z3, swap) := bits.foldl x25519Step (1, 0, 9, 1, 0)
  let (x2, _x3) := if swap == 1 then (x3, x2) else (x2, x3)
  let (z2, _z3) := if swap == 1 then (z3, z2) else (z2, z3)
  let res := x2 * powmod 300 z2 (p25519 - 2) % p25519
  (List.range 32).map (fun i => res / 256 ^ i % 256)

example : (b64decode (strBytes ("mCW7PwpK8iBmyXEFyGk55G24H0IU/AmJf5ZerzA3jGY="))).map x25519Base =
    b64decode (strBytes ("Y9psPgU9BNRCvjPR93RNghbJUPyVh0LXBTnbHb+0TgU=")) := by decide

/-! ### net / netip model -/

/-- `netip.Addr`: the zero value, an IPv4 address (4 bytes) or an IPv6
address (16 bytes). -/
inductive GoAddr where
  | invalid : GoAddr
  | v4 : List Nat → GoAddr
  | v6 : List Nat → GoAddr
deriving DecidableEq

/-- `netip.Addr.BitLen`. -/
def GoAddr.bitLen : GoAddr → Nat
  | .invalid => 0
  | .v4 _ => 32
  | .v6 _ => 128

/-- `netip.Addr.As16` (IPv4 becomes the 4-in-6 mapped form). -/
def GoAddr.as16 : GoAddr → List Nat
  | .invalid => List.replicate 16 0
  | .v4 b => List.replicate 10 0 ++ [255, 255] ++ b
  | .v6 b => b

/-- `netip.Prefix` (named `Cidr` here): an address plus a prefix length in
bits; `Bits()` is `-1` for the zero value. -/
structure Cidr where
  addr : GoAddr
  bits : Int
deriving DecidableEq

/-- The byte at index `i` of a CIDR bit mask of the given length. -/
def maskByte (bits : Nat) (i : Nat) : Nat :=
  if 8 * (i + 1) ≤ bits then 255
  else if bits ≤ 8 * i then 0
  else (255 <<< (8 - (bits - 8 * i))) % 256

/-- Equality of two byte strings restricted to the first `bits` bits. -/
def maskedEqBytes (a b : List Nat) (bits : Nat) : Bool :=
  (List.range a.length).all fun i =>
    a.getD i 0 &&& maskByte bits i == b.getD i 0 &&& maskByte bits i

/-- `netip.Prefix.IsValid`. -/
def Cidr.isValid (p : Cidr) : Bool :=
  p.addr != .invalid && 0 ≤ p.bits && p.bits ≤ (p.addr.bitLen : Int)

/-- `netip.Prefix.Contains`: families must match and the masked bits must
agree. -/
def cidrContains (p : Cidr) (ip : GoAddr) : Bool :=
  if !p.isValid then false
  else
    match p.addr, ip with
    | .v4 a, .v4 b => maskedEqBytes a b p.bits.toNat
    | .v6 a, .v6 b => maskedEqBytes a b p.bits.toNat
    | _, _ => false

/-- `net.SplitHostPort` (returns `none` on any of its error cases). -/
def splitHostPort (s : List Nat) : Option (List Nat × List Nat) :=
  let lastColon :=
    match s.reverse.findIdx? (· == 58) with
    | none => none
    | some j => some (s.length - 1 - j)
  match lastColon with
  | none => none
  | some i =>
    if s.getD 0 0 == 91 then
      match s.findIdx? (· == 93) with
      | none => none
      | some e =>
        if e + 1 == s.length then none
        else if e + 1 == i then
          if (s.drop 1).contains 91 then none
          else if (s.drop (e + 1)).contains 93 then none
          else some ((s.drop 1).take (e - 1), s.drop (i + 1))
        else none
    else
      let host := s.take i
      if host.contains 58 then none
      else if s.contains 91 then none
      else if s.contains 93 then none
      else some (host, s.drop (i + 1))

/-- Byte allowed in an HTTP header field name (Go `validHeaderFieldByte`). -/
def validHeaderFieldByte (c : Nat) : Bool :=
  (48 ≤ c && c ≤ 57) || (65 ≤ c && c ≤ 90) || (97 ≤ c && c ≤ 122) ||
    [33, 35, 36, 37, 38, 39, 42, 43, 45, 46, 94, 95, 96, 124, 126].contains c

/-- The case-folding loop of `textproto.canonicalMIMEHeaderKey`: uppercase
at the start and after each hyphen, lowercase elsewhere. -/
def canonMIME : Bool → List Nat → List Nat
  | _, [] => []
  | up, c :: rest =>
    let c2 := if up && 97 ≤ c && c ≤ 122 then c - 32
      else if !up && 65 ≤ c && c ≤ 90 then c + 32
      else c
    c2 :: canonMIME (c2 == 45) rest

/-- Go `http.CanonicalHeaderKey`: leave the key unchanged if it has an
invalid byte, otherwise canonicalize the case. -/
def canonicalHeaderKey (s : List Nat) : List Nat :=
  if s.any (fun c => !validHeaderFieldByte c) then s else canonMIME true s

/-! ### tunnelsdk.Key and tunneld.Options -/

/-- `tunnelsdk.Key`: 32 key bytes plus the private flag. -/
structure WgKey where
  k : List Nat
  isPrivate : Bool
deriving DecidableEq

/-- `Key.IsZero`: the underlying `wgtypes.Key` equals the zero array. -/
def WgKey.isZero (key : WgKey) : Bool := key.k == List.replicate 32 0

/-- `url.URL`, reduced to the fields the tunnel server uses. -/
structure GoURL where
  scheme : List Nat
  host : List Nat
deriving DecidableEq

/-- `tunneld.Options`.  `WireguardNetworkCidr` models the
WireguardNetworkPrefix field of the source; durations are nanoseconds. -/
structure Options where
  BaseURL : Option GoURL
  WireguardEndpoint : List Nat
  WireguardPort : Nat
  WireguardKey : WgKey
  WireguardMTU : Int
  WireguardServerIP : GoAddr
  WireguardNetworkCidr : Cidr
  RealIPHeader : List Nat
  PeerDialTimeout : Int
  PeerRegisterInterval : Int
  PeerTimeout : Int
deriving DecidableEq

def DefaultWireguardMTU : Int := 1280

def DefaultPeerDialTimeout : Int := 10000000000

def DefaultPeerPollDuration : Int := 30000000000

def DefaultPeerTimeout : Int := 120000000000

/-- `fcca::1`. -/
def DefaultWireguardServerIP : GoAddr :=
  .v6 [0xfc, 0xca, 0, 0, 0, 0, 0, 0, 0, 0, 0, 0, 0, 0, 0, 1]

/-- `fcca::/16` (models DefaultWireguardNetworkPrefix). -/
def DefaultWireguardNetworkCidr : Cidr :=
  ⟨.v6 [0xfc, 0xca, 0, 0, 0, 0, 0, 0, 0, 0, 0, 0, 0, 0, 0, 0], 16⟩

/-- The MTU after `Validate`'s default fill (`if options.WireguardMTU <= 0`). -/
def effMTU (o : Options) : Int :=
  if o.WireguardMTU ≤ 0 then DefaultWireguardMTU else o.WireguardMTU

/-- The server IP after `Validate`'s default fill (`BitLen() == 0`). -/
def effServerIP (o : Options) : GoAddr :=
  if o.WireguardServerIP.bitLen == 0 then DefaultWireguardServerIP else o.WireguardServerIP

/-- The network prefix after `Validate`'s default fill (`Bits() <= 0`). -/
def effCidr (o : Options) : Cidr :=
  if o.WireguardNetworkCidr.bits ≤ 0 then DefaultWireguardNetworkCidr
  else o.WireguardNetworkCidr

/-- The real-IP header after `Validate`'s canonicalization. -/
def effRealIPHeader (o : Options) : List Nat :=
  if o.RealIPHeader.isEmpty then o.RealIPHeader else canonicalHeaderKey o.RealIPHeader

/-- The peer dial timeout after `Validate`'s default fill. -/
def effPeerDialTimeout (o : Options) : Int :=
  if o.PeerDialTimeout ≤ 0 then DefaultPeerDialTimeout else o.PeerDialTimeout

/-- The re-register interval after `Validate`'s default fill. -/
def effPeerRegisterInterval (o : Options) : Int :=
  if o.PeerRegisterInterval ≤ 0 then DefaultPeerPollDuration else o.PeerRegisterInterval

/-- The peer inactivity timeout after `Validate`'s default fill. -/
def effPeerTimeout (o : Options) : Int :=
  if o.PeerTimeout ≤ 0 then DefaultPeerTimeout else o.PeerTimeout

/-- `(*Options).Validate`: the check-and-default chain of tunneld/options.go
in source order.  The Go function mutates the options struct in place as it
goes; each check after a default fill reads only fields whose fill statement
precedes it, so the in-place updates are represented by the `eff...`
projections above and the fully updated record is returned on success. -/
def validateOptions : Option Options → Except String Options
  | none => .error ("options is nil")
  | some o =>
    if o.BaseURL.isNone then .error ("BaseURL is required")
    else if o.WireguardEndpoint.isEmpty then .error ("WireguardEndpoint is required")
    else if (splitHostPort o.WireguardEndpoint).isNone then
      .error ("WireguardEndpoint is not a valid host:port combination")
    else if o.WireguardPort == 0 then .error ("WireguardPort is required")
    else if o.WireguardKey.isZero then .error ("WireguardKey is required")
    else if !o.WireguardKey.isPrivate then .error ("WireguardKey must be a private key")
    else if (effServerIP o).bitLen ≠ 128 then
      .error ("WireguardServerIP must be an IPv6 address")
    else if (effCidr o).bits > 64 then
      .error ("WireguardNetworkPrefix must have at least 64 bits available")
    else if (effCidr o).bits % 8 ≠ 0 then
      .error ("WireguardNetworkPrefix must be a multiple of 8 bits")
    else if !(cidrContains (effCidr o) (effServerIP o)) then
      .error ("WireguardServerIP must be contained within WireguardNetworkPrefix")
    else if effPeerRegisterInterval o ≥ effPeerTimeout o then
      .error ("PeerRegisterInterval must be less than PeerTimeout")
    else .ok { o with
      WireguardMTU := effMTU o
      WireguardServerIP := effServerIP o
      WireguardNetworkCidr := effCidr o
      RealIPHeader := effRealIPHeader o
      PeerDialTimeout := effPeerDialTimeout o
      PeerRegisterInterval := effPeerRegisterInterval o
      PeerTimeout := effPeerTimeout o }

/-! ### the key and hostname codec (tunneld/options.go) -/

/-- Errors of `HostnameToWireguardIP`, one per `xerrors.Errorf` site. -/
inductive HostnameDecodeErr where
  | decodeOld
  | invalidOldLen
  | decodeNew
  | invalidNewLen
  | noMatch
deriving DecidableEq

/-- `(*Options).WireguardPublicKeyToIPAndURLs`: derives the virtual IPv6
address (prefix address bytes 0..7, then SHA-256(key) bytes 0..7), the
short ("good") base32 label URL and the legacy ("old") hex label URL,
ordered by tunnel version. -/
def WireguardPublicKeyToIPAndURLs (o : Options) (publicKey : List Nat) (version : Int) :
    List Nat × List GoURL :=
  let keyHash := sha256 publicKey
  let addrBytes := (o.WireguardNetworkCidr.addr.as16).take 8 ++ keyHash.take 8
  let goodFormat := b32encode (keyHash.take 8)
  let base := match o.BaseURL with | some u => u | none => ⟨[], []⟩
  let goodFormatURL : GoURL := { base with host := lowerStr goodFormat ++ [46] ++ base.host }
  let prefixLenBytes := o.WireguardNetworkCidr.bits.toNat / 8
  let oldFormatBytes := addrBytes.take prefixLenBytes ++ keyHash.take (16 - prefixLenBytes)
  let oldFormat := hexEncode oldFormatBytes
  let oldFormatURL : GoURL := { base with host := lowerStr oldFormat ++ [46] ++ base.host }
  let urls := if version == 1 then [oldFormatURL, goodFormatURL]
    else [goodFormatURL, oldFormatURL]
  (addrBytes, urls)

/-- `(*Options).HostnameToWireguardIP`: a 32-character label is hex-decoded
("old format"), anything else is uppercased and base32-hex-decoded ("good
format"); the resulting 8 client bytes are appended to the first 8 bytes of
the network prefix address. -/
def HostnameToWireguardIP (o : Options) (hostname : List Nat) :
    Except HostnameDecodeErr (List Nat) :=
  if hostname.length == 32 then
    match hexDecode hostname with
    | none => .error .decodeOld
    | some decoded =>
      if decoded.length ≠ 16 then .error .invalidOldLen
      else
        let prefixLenBytes := o.WireguardNetworkCidr.bits.toNat / 8
        let addrLast8 := (decoded.drop prefixLenBytes).take 8
        .ok ((o.WireguardNetworkCidr.addr.as16).take 8 ++ addrLast8)
  else
    match b32decode (upperStr hostname) with
    | none => .error .decodeNew
    | some decoded =>
      if decoded.length ≠ 8 then .error .invalidNewLen
      else .ok ((o.WireguardNetworkCidr.addr.as16).take 8 ++ decoded)

/-! ### tunneld/api.go: ingress decision and registration -/

/-- Strip leading and trailing dots (Go `strings.Trim(hostname, ".")`). -/
def trimDots (s : List Nat) : List Nat :=
  ((s.dropWhile (· == 46)).reverse.dropWhile (· == 46)).reverse

/-- `splitHostname` of tunneld/api.go: trim dots, drop a port if the string
is a valid host:port, then split at the first dot. -/
def splitHostname (hostname : List Nat) : List Nat × List Nat :=
  let h0 := trimDots hostname
  let h := match splitHostPort h0 with
    | some (hst, _) => hst
    | none => h0
  match h.findIdx? (· == 46) with
  | none => (h, [])
  | some i => (h.take i, h.drop (i + 1))

/-- The last segment of `strings.Split(subdomain, "-")`. -/
def lastHyphenSegment (s : List Nat) : List Nat :=
  (s.reverse.takeWhile (· != 45)).reverse

/-- One entry of the server's `pkeyCache`: cached public key and
last-handshake time (nanoseconds). -/
structure CachedPeer where
  key : List Nat
  lastHandshake : Int
deriving DecidableEq

/-- The observable outcome of `handleTunnel` for one ingress request. -/
inductive TunnelOutcome where
  | invalidURL : HostnameDecodeErr → TunnelOutcome
  | notConnected : TunnelOutcome
  | dialPeer : List Nat → TunnelOutcome
deriving DecidableEq

/-- `(*API).handleTunnel`, up to the reverse-proxy dial: extract the last
hyphen-separated segment of the subdomain, decode it, look the address up in
the peer cache, reject stale or unknown peers, confirm the device still has
the peer, and otherwise dial. -/
def handleTunnel (o : Options) (cache : List (List Nat × CachedPeer))
    (devicePeers : List (List Nat)) (now : Int) (host : List Nat) : TunnelOutcome :=
  let subdomain := (splitHostname host).1
  let user := lastHyphenSegment subdomain
  match HostnameToWireguardIP o user with
  | .error e => .invalidURL e
  | .ok ip =>
    match cache.lookup ip with
    | none => .notConnected
    | some pkey =>
      if now - pkey.lastHandshake > o.PeerTimeout then .notConnected
      else if !(devicePeers.contains pkey.key) then .notConnected
      else .dialPeer ip

def TunnelVersionLatest : Int := 2

/-- `(*API).registerClient`, reduced to its response data: the version is
clamped to the latest when out of range, the URLs and client IP come from
the codec, and `existed` is whether the device already had the peer
(`wgDevice.LookupPeer(req.PublicKey) != nil`). -/
def registerClient (o : Options) (devicePeers : List (List Nat)) (version : Int)
    (publicKey : List Nat) : List GoURL × List Nat × Bool :=
  let v := if version ≤ 0 || version > TunnelVersionLatest then TunnelVersionLatest else version
  let (ip, urls) := WireguardPublicKeyToIPAndURLs o publicKey v
  (urls, ip, devicePeers.contains publicKey)

/-- `url.URL.String` for a scheme-and-host URL. -/
def urlString (u : GoURL) : List Nat := u.scheme ++ strBytes ("://") ++ u.host

/-- Index of the first occurrence of `://`. -/
def findSchemeSep : List Nat → Nat → Option Nat
  | c0 :: c1 :: c2 :: rest, i =>
    if c0 == 58 && c1 == 47 && c2 == 47 then some i
    else findSchemeSep (c1 :: c2 :: rest) (i + 1)
  | _, _ => none

/-- `url.Parse(..).Host` for absolute URLs: the part between `://` and the
next `/`, `?` or `#`. -/
def parseURLHost (s : List Nat) : Option (List Nat) :=
  match findSchemeSep s 0 with
  | none => none
  | some i => some ((s.drop (i + 3)).takeWhile (fun c => c != 47 && c != 63 && c != 35))

/-- `(*API).postTun`, reduced to its status code and hostname field: force
version 1, register, and answer 201 for a new peer or 200 for an existing
one with the host of the first tunnel URL. -/
def postTun (o : Options) (devicePeers : List (List Nat)) (publicKey : List Nat) :
    Nat × List Nat :=
  let r := registerClient o devicePeers 1 publicKey
  match r.1 with
  | [] => (500, [])
  | u :: _ =>
    match parseURLHost (urlString u) with
    | none => (500, [])
    | some host => (if r.2.2 then 200 else 201, host)

/-! ### httpmw.LimitReader / LimitBody -/

/-- The sentinel `httpmw.ErrLimitReached`. -/
inductive CopyErr where
  | limitReached
deriving DecidableEq

/-- `io.Copy` driving `httpmw.LimitReader.Read` over a `bytes.Buffer` body.
`B` is the copy buffer size, `limit` the reader's limit, `n` the running
count, `src` the bytes still in the body.  Each `Read`: if `n >= limit`
return `ErrLimitReached`; otherwise cap the buffer to `limit - n`, read from
the body (which yields `io.EOF`, i.e. clean termination of the copy, only
when it is empty).  The fuel is an upper bound on the number of iterations;
`src.length + 1` always suffices for `B ≥ 1`. -/
def copyStep (B : Nat) (limit : Int) : Nat → Int → List Nat → Nat × Option CopyErr
  | 0, _, _ => (0, none)
  | fuel + 1, n, src =>
    if limit ≤ n then (0, some .limitReached)
    else
      let t := min B (limit - n).toNat
      if t == 0 then (0, none)
      else
        match src with
        | [] => (0, none)
        | _ :: _ =>
          let d := min t src.length
          let r := copyStep B limit fuel (n + d) (src.drop d)
          (d + r.1, r.2)

/-- Reading a whole request body of `src` through `LimitBody(limit)` with
copy-buffer size `B`: total bytes delivered and the terminating error, if
any (`none` means the copy ended at EOF). -/
def limitedBodyCopy (B : Nat) (limit : Int) (src : List Nat) : Nat × Option CopyErr :=
  copyStep B limit (src.length + 1) 0 src

/-! ### net.ParseIP, net.IP.Mask, net.IP.String and httpmw.canonicalizeIP -/

/-- Go `dtoi`: leading decimal number, capped at 0xFFFFFF. -/
def dtoiLoop : List Nat → Nat → Nat → Nat × Nat × Bool
  | [], n, i => if i == 0 then (0, 0, false) else (n, i, true)
  | c :: rest, n, i =>
    if 48 ≤ c && c ≤ 57 then
      let n2 := n * 10 + (c - 48)
      if n2 ≥ 16777215 then (16777215, i + 1, false) else dtoiLoop rest n2 (i + 1)
    else if i == 0 then (0, 0, false) else (n, i, true)

def dtoi (s : List Nat) : Nat × Nat × Bool := dtoiLoop s 0 0

/-- Go `xtoi`: leading hexadecimal number, capped at 0xFFFFFF. -/
def xtoiLoop : List Nat → Nat → Nat → Nat × Nat × Bool
  | [], n, i => if i == 0 then (0, 0, false) else (n, i, true)
  | c :: rest, n, i =>
    let v : Option Nat :=
      if 48 ≤ c && c ≤ 57 then some (c - 48)
      else if 97 ≤ c && c ≤ 102 then some (c - 97 + 10)
      else if 65 ≤ c && c ≤ 70 then some (c - 65 + 10)
      else none
    match v with
    | none => if i == 0 then (0, 0, false) else (n, i, true)
    | some d =>
      let n2 := n * 16 + d
      if n2 ≥ 16777215 then (0, i + 1, false) else xtoiLoop rest n2 (i + 1)

def xtoi (s : List Nat) : Nat × Nat × Bool := xtoiLoop s 0 0

/-- Go `parseIPv4` field loop: four dot-separated decimal fields, each at
most 255, with no leading zeros. -/
def parseV4Loop : Nat → List Nat → List Nat → Option (List Nat)
  | 0, s, acc => if s.isEmpty then some acc else none
  | fld + 1, s, acc =>
    let afterDot : Option (List Nat) :=
      if acc.isEmpty then some s
      else match s with
        | 46 :: rest => some rest
        | _ => none
    match afterDot with
    | none => none
    | some s1 =>
      let r := dtoi s1
      if !r.2.2 || r.1 > 255 then none
      else if r.2.1 > 1 && s1.getD 0 0 == 48 then none
      else parseV4Loop fld (s1.drop r.2.1) (acc ++ [r.1])

/-- Go `parseIPv4` (4 bytes). -/
def parseV4 (s : List Nat) : Option (List Nat) := parseV4Loop 4 s []

/-- Go `parseIPv6` main loop.  `acc` holds the bytes parsed so far, `ell`
the byte position of the ellipsis if one was seen.  Mirrors the structure of
the Go loop: hex group, optional trailing IPv4, colon, optional `::`. -/
def parseV6Loop : Nat → List Nat → List Nat → Option Nat →
    Option (List Nat × Option Nat)
  | 0, s, acc, ell => if s.isEmpty then some (acc, ell) else none
  | fuel + 1, s, acc, ell =>
    if 16 ≤ acc.length then (if s.isEmpty then some (acc, ell) else none)
    else
      let r := xtoi s
      if !r.2.2 || r.1 > 65535 then none
      else if (s.drop r.2.1).head? == some 46 then
        if (ell.isNone && acc.length ≠ 12) || acc.length + 4 > 16 then none
        else
          match parseV4 s with
          | none => none
          | some b4 => some (acc ++ b4, ell)
      else
        let acc2 := acc ++ [(r.1 >>> 8) % 256, r.1 % 256]
        let s2 := s.drop r.2.1
        match s2 with
        | [] => some (acc2, ell)
        | 58 :: s3 =>
          match s3 with
          | [] => none
          | 58 :: s4 =>
            match ell with
            | some _ => none
            | none =>
              if s4.isEmpty then some (acc2, some acc2.length)
              else parseV6Loop fuel s4 acc2 (some acc2.length)
          | _ :: _ => parseV6Loop fuel s3 acc2 ell
        | _ :: _ => none

/-- Go `parseIPv6` (16 bytes): leading `::` special case, main loop, then
ellipsis expansion. -/
def parseV6 (s : List Nat) : Option (List Nat) :=
  match s with
  | 58 :: 58 :: rest =>
    if rest.isEmpty then some (List.replicate 16 0)
    else
      match parseV6Loop 8 rest [] (some 0) with
      | none => none
      | some (acc, ell) =>
        if acc.length < 16 then
          match ell with
          | none => none
          | some e => some (acc.take e ++ List.replicate (16 - acc.length) 0 ++ acc.drop e)
        else if ell.isSome && acc.length == 16 then none
        else some acc
  | _ =>
    match parseV6Loop 8 s [] none with
    | none => none
    | some (acc, ell) =>
      if acc.length < 16 then
        match ell with
        | none => none
        | some e => some (acc.take e ++ List.replicate (16 - acc.length) 0 ++ acc.drop e)
      else if ell.isSome && acc.length == 16 then none
      else some acc

/-- Go `net.ParseIP`: dispatch on the first `.` or `:`; IPv4 results are
returned in 4-in-6 form (16 bytes), like `net.IPv4`. -/
def goParseIP (s : List Nat) : Option (List Nat) :=
  match s.find? (fun c => c == 46 || c == 58) with
  | some 46 => (parseV4 s).map (fun b4 => List.replicate 10 0 ++ [255, 255] ++ b4)
  | some 58 => parseV6 s
  | _ => none

/-- `net.CIDRMask(64, 128)`. -/
def cidrMask64 : List Nat := List.replicate 8 255 ++ List.replicate 8 0

/-- `net.IP.Mask` for equal-length IP and mask (the two 4-vs-16 special
cases cannot arise here); a length mismatch yields Go's nil IP. -/
def ipMask (ip mask : List Nat) : Option (List Nat) :=
  if ip.length ≠ mask.length then none
  else some (List.zipWith (fun x y => x &&& y) ip mask)

/-- `net.IP.To4` on a 16-byte IP: the 4-in-6 pattern. -/
def ipTo4 (b : List Nat) : Option (List Nat) :=
  if b.length == 4 then some b
  else if b.length == 16 && decide (b.take 10 = List.replicate 10 0) &&
      b.getD 10 0 == 255 && b.getD 11 0 == 255 then
    some (b.drop 12)
  else none

/-- Decimal digits of a number (ASCII). -/
def natDecStr (n : Nat) : List Nat := (Nat.toDigits 10 n).map Char.toNat

/-- Lowercase hex digits of a number (ASCII), as Go's `appendHex`. -/
def natHexStr (n : Nat) : List Nat := (Nat.toDigits 16 n).map Char.toNat

/-- End of the run of zero 16-bit groups that starts at byte index `j`. -/
def zeroRunEnd (b : List Nat) : Nat → Nat → Nat
  | 0, j => j
  | fuel + 1, j =>
    if j < 16 && b.getD j 0 == 0 && b.getD (j + 1) 0 == 0 then
      zeroRunEnd b fuel (j + 2)
    else j

/-- The longest (leftmost on ties) run of zero groups, as in `IP.String`;
`false` when no run longer than one group exists. -/
def findZeroRun (b : List Nat) : Nat × Nat × Bool :=
  let st := [0, 2, 4, 6, 8, 10, 12, 14].foldl
    (fun (st : Nat × Nat × Bool) i =>
      let j := zeroRunEnd b 8 i
      if j > i && (!st.2.2 || j - i > st.2.1 - st.1) then (i, j, true) else st)
    (0, 0, false)
  if st.2.2 && st.2.1 - st.1 ≤ 2 then (0, 0, false) else st

/-- The 16-bit group at byte index `i`. -/
def v6group (b : List Nat) (i : Nat) : Nat := ((b.getD i 0) <<< 8) ||| b.getD (i + 1) 0

/-- The group-printing loop of `IP.String`: `::` at the elided run, `:`
between other groups. -/
def v6StrLoop (b : List Nat) (e0 e1 : Nat) (useRun : Bool) : Nat → Nat → List Nat
  | 0, _ => []
  | fuel + 1, i =>
    if 16 ≤ i then []
    else if useRun && i == e0 then
      strBytes ("::") ++
        (if 16 ≤ e1 then []
         else natHexStr (v6group b e1) ++ v6StrLoop b e0 e1 useRun fuel (e1 + 2))
    else
      (if 0 < i then [58] else []) ++ natHexStr (v6group b i) ++
        v6StrLoop b e0 e1 useRun fuel (i + 2)

/-- Go `net.IP.String`. -/
def ipString (b : List Nat) : List Nat :=
  if b.isEmpty then strBytes ("<nil>")
  else
    match ipTo4 b with
    | some b4 =>
      natDecStr (b4.getD 0 0) ++ [46] ++ natDecStr (b4.getD 1 0) ++ [46] ++
        natDecStr (b4.getD 2 0) ++ [46] ++ natDecStr (b4.getD 3 0)
    | none =>
      if b.length ≠ 16 then [63] ++ hexEncode b
      else
        let run := findZeroRun b
        v6StrLoop b run.1 run.2.1 run.2.2 9 0

/-- `httpmw.canonicalizeIP`: scan for the first `.` (IPv4: return as-is) or
`:` (IPv6: parse, mask to /64, format); anything else is returned
unchanged. -/
def canonicalizeIP (ip : List Nat) : List Nat :=
  match ip.find? (fun c => c == 46 || c == 58) with
  | some 46 => ip
  | some 58 =>
    match goParseIP ip with
    | none => ip
    | some bytes =>
      match ipMask bytes cidrMask64 with
      | none => strBytes ("<nil>")
      | some masked => ipString masked
  | _ => ip

example : b32encode [0x25, 0xa2, 0x8a, 0x43, 0x2e, 0x91, 0x15, 0x43] =
    strBytes ("4MH8KGPEI4AK6") := by decide

example : b32decode (strBytes ("4MH8KGPEI4AK6")) =
    some [0x25, 0xa2, 0x8a, 0x43, 0x2e, 0x91, 0x15, 0x43] := by decide

example : hexEncode [0xfc, 0xca, 0x25] = strBytes ("fcca25") := by decide

example : hexDecode (strBytes ("fcca25")) = some [0xfc, 0xca, 0x25] := by decide

/-! ### Concrete data for witnesses: the keys of the compatibility tests and
a validated server configuration -/

/-- Bytes of the public key `Q3dubFlwwLnCpQTagjCckb1XLGtViZoBX1qHAZWV2gI=`. -/
def testKey1 : List Nat :=
  [0x43, 0x77, 0x6e, 0x6c, 0x59, 0x70, 0xc0, 0xb9, 0xc2, 0xa5, 0x04, 0xda,
   0x82, 0x30, 0x9c, 0x91, 0xbd, 0x57, 0x2c, 0x6b, 0x55, 0x89, 0x9a, 0x01,
   0x5f, 0x5a, 0x87, 0x01, 0x95, 0x95, 0xda, 0x02]

/-- Bytes of the public key `Y9psPgU9BNRCvjPR93RNghbJUPyVh0LXBTnbHb+0TgU=`. -/
def testKey2Pub : List Nat :=
  [0x63, 0xda, 0x6c, 0x3e, 0x05, 0x3d, 0x04, 0xd4, 0x42, 0xbe, 0x33, 0xd1,
   0xf7, 0x74, 0x4d, 0x82, 0x16, 0xc9, 0x50, 0xfc, 0x95, 0x87, 0x42, 0xd7,
   0x05, 0x39, 0xdb, 0x1d, 0xbf, 0xb4, 0x4e, 0x05]

/-- Bytes of the private key `mCW7PwpK8iBmyXEFyGk55G24H0IU/AmJf5ZerzA3jGY=`. -/
def testKey2Priv : List Nat :=
  [0x98, 0x25, 0xbb, 0x3f, 0x0a, 0x4a, 0xf2, 0x20, 0x66, 0xc9, 0x71, 0x05,
   0xc8, 0x69, 0x39, 0xe4, 0x6d, 0xb8, 0x1f, 0x42, 0x14, 0xfc, 0x09, 0x89,
   0x7f, 0x96, 0x5e, 0xaf, 0x30, 0x37, 0x8c, 0x66]

/-- A server configuration with the default `fcca::/16` prefix and base URL
`https://tunnel.example.com`, as in the repository's tests. -/
def testOpts : Options :=
  { BaseURL := some ⟨strBytes ("https"), strBytes ("tunnel.example.com")⟩
    WireguardEndpoint := strBytes ("localhost:55551")
    WireguardPort := 55551
    WireguardKey := ⟨testKey2Priv, true⟩
    WireguardMTU := 1280
    WireguardServerIP := DefaultWireguardServerIP
    WireguardNetworkCidr := DefaultWireguardNetworkCidr
    RealIPHeader := []
    PeerDialTimeout := 10000000000
    PeerRegisterInterval := 30000000000
    PeerTimeout := 120000000000 }

/-- A server configuration with a non-default `/64` prefix. -/
def testOpts64 : Options :=
  { testOpts with
    WireguardServerIP :=
      .v6 [0xfd, 0x2d, 0x11, 0x22, 0x33, 0x44, 0x55, 0x66, 0, 0, 0, 0, 0, 0, 0, 1]
    WireguardNetworkCidr :=
      ⟨.v6 [0xfd, 0x2d, 0x11, 0x22, 0x33, 0x44, 0x55, 0x66, 0, 0, 0, 0, 0, 0, 0, 0], 64⟩ }

/-- The record `Validate` returns on success. -/
def validatedRecord (o : Options) : Options :=
  { o with
    WireguardMTU := effMTU o
    WireguardServerIP := effServerIP o
    WireguardNetworkCidr := effCidr o
    RealIPHeader := effRealIPHeader o
    PeerDialTimeout := effPeerDialTimeout o
    PeerRegisterInterval := effPeerRegisterInterval o
    PeerTimeout := effPeerTimeout o }

/-- All the conditions `Validate` checks, as one predicate. -/
def validOptions (o : Options) : Prop :=
  o.BaseURL.isNone = false ∧ o.WireguardEndpoint.isEmpty = false ∧
  (splitHostPort o.WireguardEndpoint).isNone = false ∧
  (o.WireguardPort == 0) = false ∧ o.WireguardKey.isZero = false ∧
  o.WireguardKey.isPrivate = true ∧ (effServerIP o).bitLen = 128 ∧
  (effCidr o).bits ≤ 64 ∧ (effCidr o).bits % 8 = 0 ∧
  cidrContains (effCidr o) (effServerIP o) = true ∧
  effPeerRegisterInterval o < effPeerTimeout o

/-! ## General lemmas: bit arithmetic, codec round trips, SHA-256 shape -/

theorem lor_add_left (k a b : Nat) (ha : a % 2 ^ k = 0) (hb : b < 2 ^ k) :
    a ||| b = a + b := by
  obtain ⟨q, hq⟩ := Nat.dvd_of_mod_eq_zero ha
  subst hq
  exact (Nat.mul_add_lt_is_or hb q).symm

theorem lor_add_right (k a b : Nat) (ha : a < 2 ^ k) (hb : b % 2 ^ k = 0) :
    a ||| b = a + b := by
  rw [Nat.lor_comm, lor_add_left k b a hb ha]
  omega

theorem shrE (x k : Nat) : x >>> k = x / 2 ^ k := Nat.shiftRight_eq_div_pow x k

theorem shlE (x k : Nat) : x <<< k = x * 2 ^ k := Nat.shiftLeft_eq x k

theorem and31 (x : Nat) : x &&& 31 = x % 32 := by
  have h := Nat.and_pow_two_sub_one_eq_mod x 5
  norm_num at h
  exact h

theorem b32P0 (s0 s1 : Nat) (h0 : s0 < 256) (h1 : s1 < 256) :
    b32out0 ((s0 >>> 3) &&& 31)
      ((((s1 >>> 6) &&& 31) ||| ((s0 <<< 2) % 256 &&& 31)) &&& 31) = s0 := by
  have hi : ((s1 >>> 6) &&& 31) ||| ((s0 <<< 2) % 256 &&& 31)
      = ((s1 >>> 6) &&& 31) + ((s0 <<< 2) % 256 &&& 31) := by
    simp only [shrE, shlE, and31]
    exact lor_add_right 2 _ _ (by omega) (by omega)
  rw [b32out0, hi]
  have ho : ((((s0 >>> 3) &&& 31) <<< 3) % 256) |||
      (((((s1 >>> 6) &&& 31) + ((s0 <<< 2) % 256 &&& 31)) &&& 31) >>> 2)
      = ((((s0 >>> 3) &&& 31) <<< 3) % 256) +
        (((((s1 >>> 6) &&& 31) + ((s0 <<< 2) % 256 &&& 31)) &&& 31) >>> 2) := by
    simp only [shrE, shlE, and31]
    exact lor_add_left 3 _ _ (by omega) (by omega)
  rw [ho]
  simp only [shrE, shlE, and31]
  omega

theorem b32P1 (s0 s1 s2 : Nat) (h0 : s0 < 256) (h1 : s1 < 256) (h2 : s2 < 256) :
    b32out1 ((((s1 >>> 6) &&& 31) ||| ((s0 <<< 2) % 256 &&& 31)) &&& 31)
      (((s1 >>> 1) &&& 31) &&& 31)
      ((((s2 >>> 4) &&& 31) ||| ((s1 <<< 4) % 256 &&& 31)) &&& 31) = s1 := by
  have hi1 : ((s1 >>> 6) &&& 31) ||| ((s0 <<< 2) % 256 &&& 31)
      = ((s1 >>> 6) &&& 31) + ((s0 <<< 2) % 256 &&& 31) := by
    simp only [shrE, shlE, and31]
    exact lor_add_right 2 _ _ (by omega) (by omega)
  have hi3 : ((s2 >>> 4) &&& 31) ||| ((s1 <<< 4) % 256 &&& 31)
      = ((s2 >>> 4) &&& 31) + ((s1 <<< 4) % 256 &&& 31) := by
    simp only [shrE, shlE, and31]
    exact lor_add_right 4 _ _ (by omega) (by omega)
  rw [b32out1, hi1, hi3]
  have ho1 : (((((s1 >>> 6) &&& 31) + ((s0 <<< 2) % 256 &&& 31)) &&& 31) <<< 6) % 256 |||
      (((((s1 >>> 1) &&& 31) &&& 31) <<< 1) % 256)
      = (((((s1 >>> 6) &&& 31) + ((s0 <<< 2) % 256 &&& 31)) &&& 31) <<< 6) % 256 +
        (((((s1 >>> 1) &&& 31) &&& 31) <<< 1) % 256) := by
    simp only [shrE, shlE, and31]
    exact lor_add_left 6 _ _ (by omega) (by omega)
  rw [ho1]
  have ho2 : ((((((s1 >>> 6) &&& 31) + ((s0 <<< 2) % 256 &&& 31)) &&& 31) <<< 6) % 256 +
      (((((s1 >>> 1) &&& 31) &&& 31) <<< 1) % 256)) |||
      (((((s2 >>> 4) &&& 31) + ((s1 <<< 4) % 256 &&& 31)) &&& 31) >>> 4)
      = ((((((s1 >>> 6) &&& 31) + ((s0 <<< 2) % 256 &&& 31)) &&& 31) <<< 6) % 256 +
        (((((s1 >>> 1) &&& 31) &&& 31) <<< 1) % 256)) +
        (((((s2 >>> 4) &&& 31) + ((s1 <<< 4) % 256 &&& 31)) &&& 31) >>> 4) := by
    simp only [shrE, shlE, and31]
    exact lor_add_left 1 _ _ (by omega) (by omega)
  rw [ho2]
  simp only [shrE, shlE, and31]
  omega

theorem b32P2 (s1 s2 s3 : Nat) (h1 : s1 < 256) (h2 : s2 < 256) (h3 : s3 < 256) :
    b32out2 ((((s2 >>> 4) &&& 31) ||| ((s1 <<< 4) % 256 &&& 31)) &&& 31)
      (((s3 >>> 7) ||| ((s2 <<< 1) % 256 &&& 31)) &&& 31) = s2 := by
  have hi3 : ((s2 >>> 4) &&& 31) ||| ((s1 <<< 4) % 256 &&& 31)
      = ((s2 >>> 4) &&& 31) + ((s1 <<< 4) % 256 &&& 31) := by
    simp only [shrE, shlE, and31]
    exact lor_add_right 4 _ _ (by omega) (by omega)
  have hi4 : (s3 >>> 7) ||| ((s2 <<< 1) % 256 &&& 31)
      = (s3 >>> 7) + ((s2 <<< 1) % 256 &&& 31) := by
    simp only [shrE, shlE, and31]
    exact lor_add_right 1 _ _ (by omega) (by omega)
  rw [b32out2, hi3, hi4]
  have ho : (((((s2 >>> 4) &&& 31) + ((s1 <<< 4) % 256 &&& 31)) &&& 31) <<< 4) % 256 |||
      ((((s3 >>> 7) + ((s2 <<< 1) % 256 &&& 31)) &&& 31) >>> 1)
      = (((((s2 >>> 4) &&& 31) + ((s1 <<< 4) % 256 &&& 31)) &&& 31) <<< 4) % 256 +
        ((((s3 >>> 7) + ((s2 <<< 1) % 256 &&& 31)) &&& 31) >>> 1) := by
    simp only [shrE, shlE, and31]
    exact lor_add_left 4 _ _ (by omega) (by omega)
  rw [ho]
  simp only [shrE, shlE, and31]
  omega

theorem b32P3 (s2 s3 s4 : Nat) (h2 : s2 < 256) (h3 : s3 < 256) (h4 : s4 < 256) :
    b32out3 (((s3 >>> 7) ||| ((s2 <<< 1) % 256 &&& 31)) &&& 31)
      (((s3 >>> 2) &&& 31) &&& 31)
      (((s4 >>> 5) ||| ((s3 <<< 3) % 256 &&& 31)) &&& 31) = s3 := by
  have hi4 : (s3 >>> 7) ||| ((s2 <<< 1) % 256 &&& 31)
      = (s3 >>> 7) + ((s2 <<< 1) % 256 &&& 31) := by
    simp only [shrE, shlE, and31]
    exact lor_add_right 1 _ _ (by omega) (by omega)
  have hi6 : (s4 >>> 5) ||| ((s3 <<< 3) % 256 &&& 31)
      = (s4 >>> 5) + ((s3 <<< 3) % 256 &&& 31) := by
    simp only [shrE, shlE, and31]
    exact lor_add_right 3 _ _ (by omega) (by omega)
  rw [b32out3, hi4, hi6]
  have ho1 : ((((s3 >>> 7) + ((s2 <<< 1) % 256 &&& 31)) &&& 31) <<< 7) % 256 |||
      (((((s3 >>> 2) &&& 31) &&& 31) <<< 2) % 256)
      = ((((s3 >>> 7) + ((s2 <<< 1) % 256 &&& 31)) &&& 31) <<< 7) % 256 +
        (((((s3 >>> 2) &&& 31) &&& 31) <<< 2) % 256) := by
    simp only [shrE, shlE, and31]
    exact lor_add_left 7 _ _ (by omega) (by omega)
  rw [ho1]
  have ho2 : (((((s3 >>> 7) + ((s2 <<< 1) % 256 &&& 31)) &&& 31) <<< 7) % 256 +
      (((((s3 >>> 2) &&& 31) &&& 31) <<< 2) % 256)) |||
      ((((s4 >>> 5) + ((s3 <<< 3) % 256 &&& 31)) &&& 31) >>> 3)
      = ((((((s3 >>> 7) + ((s2 <<< 1) % 256 &&& 31)) &&& 31) <<< 7) % 256 +
        (((((s3 >>> 2) &&& 31) &&& 31) <<< 2) % 256)) +
        ((((s4 >>> 5) + ((s3 <<< 3) % 256 &&& 31)) &&& 31) >>> 3)) := by
    simp only [shrE, shlE, and31]
    exact lor_add_left 2 _ _ (by omega) (by omega)
  rw [ho2]
  simp only [shrE, shlE, and31]
  omega

theorem b32P4 (s3 s4 : Nat) (h3 : s3 < 256) (h4 : s4 < 256) :
    b32out4 (((s4 >>> 5) ||| ((s3 <<< 3) % 256 &&& 31)) &&& 31)
      ((s4 &&& 31) &&& 31) = s4 := by
  have hi6 : (s4 >>> 5) ||| ((s3 <<< 3) % 256 &&& 31)
      = (s4 >>> 5) + ((s3 <<< 3) % 256 &&& 31) := by
    simp only [shrE, shlE, and31]
    exact lor_add_right 3 _ _ (by omega) (by omega)
  rw [b32out4, hi6]
  have ho : ((((s4 >>> 5) + ((s3 <<< 3) % 256 &&& 31)) &&& 31) <<< 5) % 256 |||
      ((s4 &&& 31) &&& 31)
      = ((((s4 >>> 5) + ((s3 <<< 3) % 256 &&& 31)) &&& 31) <<< 5) % 256 +
        ((s4 &&& 31) &&& 31) := by
    simp only [shrE, shlE, and31]
    exact lor_add_left 5 _ _ (by omega) (by omega)
  rw [ho]
  simp only [shrE, shlE, and31]
  omega

theorem b32P2b (s1 s2 : Nat) (h1 : s1 < 256) (h2 : s2 < 256) :
    b32out2 ((((s2 >>> 4) &&& 31) ||| ((s1 <<< 4) % 256 &&& 31)) &&& 31)
      (((s2 <<< 1) % 256 &&& 31) &&& 31) = s2 := by
  have hi3 : ((s2 >>> 4) &&& 31) ||| ((s1 <<< 4) % 256 &&& 31)
      = ((s2 >>> 4) &&& 31) + ((s1 <<< 4) % 256 &&& 31) := by
    simp only [shrE, shlE, and31]
    exact lor_add_right 4 _ _ (by omega) (by omega)
  rw [b32out2, hi3]
  have ho : (((((s2 >>> 4) &&& 31) + ((s1 <<< 4) % 256 &&& 31)) &&& 31) <<< 4) % 256 |||
      ((((s2 <<< 1) % 256 &&& 31) &&& 31) >>> 1)
      = (((((s2 >>> 4) &&& 31) + ((s1 <<< 4) % 256 &&& 31)) &&& 31) <<< 4) % 256 +
        ((((s2 <<< 1) % 256 &&& 31) &&& 31) >>> 1) := by
    simp only [shrE, shlE, and31]
    exact lor_add_left 4 _ _ (by omega) (by omega)
  rw [ho]
  simp only [shrE, shlE, and31]
  omega

theorem b32dval_alpha : ∀ j : Nat, j < 32 → b32dval (b32alpha.getD j 0) = j := by decide

theorem b32dval_char (v : Nat) : b32dval (b32char v) = v &&& 31 :=
  b32dval_alpha (v &&& 31) (Nat.lt_succ_of_le Nat.and_le_right)

theorem and31_ne255 (v : Nat) : ((v &&& 31) == 255) = false := by
  have h : v &&& 31 ≤ 31 := Nat.and_le_right
  simp only [beq_eq_false_iff_ne, ne_eq]
  omega

set_option maxHeartbeats 1000000 in
theorem b32_roundtrip8 (s0 s1 s2 s3 s4 s5 s6 s7 : Nat)
    (h0 : s0 < 256) (h1 : s1 < 256) (h2 : s2 < 256) (h3 : s3 < 256)
    (h4 : s4 < 256) (h5 : s5 < 256) (h6 : s6 < 256) (h7 : s7 < 256) :
    b32decode (b32encode [s0, s1, s2, s3, s4, s5, s6, s7]) =
      some [s0, s1, s2, s3, s4, s5, s6, s7] := by
  show b32decode
      (b32char (s0 >>> 3) ::
        b32char (((s1 >>> 6) &&& 31) ||| ((s0 <<< 2) % 256 &&& 31)) ::
        b32char ((s1 >>> 1) &&& 31) ::
        b32char (((s2 >>> 4) &&& 31) ||| ((s1 <<< 4) % 256 &&& 31)) ::
        b32char ((s3 >>> 7) ||| ((s2 <<< 1) % 256 &&& 31)) ::
        b32char ((s3 >>> 2) &&& 31) ::
        b32char ((s4 >>> 5) ||| ((s3 <<< 3) % 256 &&& 31)) ::
        b32char (s4 &&& 31) ::
        [b32char (s5 >>> 3),
          b32char (((s6 >>> 6) &&& 31) ||| ((s5 <<< 2) % 256 &&& 31)),
          b32char ((s6 >>> 1) &&& 31),
          b32char (((s7 >>> 4) &&& 31) ||| ((s6 <<< 4) % 256 &&& 31)),
          b32char ((s7 <<< 1) % 256 &&& 31)]) = _
  simp only [b32decode, b32dval_char, and31_ne255, Bool.or_false, Bool.false_or,
    if_false, Bool.false_eq_true, ite_false]
  rw [b32P0 s0 s1 h0 h1, b32P1 s0 s1 s2 h0 h1 h2, b32P2 s1 s2 s3 h1 h2 h3,
    b32P3 s2 s3 s4 h2 h3 h4, b32P4 s3 s4 h3 h4,
    b32P0 s5 s6 h5 h6, b32P1 s5 s6 s7 h5 h6 h7, b32P2b s6 s7 h6 h7]
  rfl

theorem and15 (x : Nat) : x &&& 15 = x % 16 := by
  have h := Nat.and_pow_two_sub_one_eq_mod x 4
  norm_num at h
  exact h

theorem hexTable_val : ∀ j : Nat, j < 16 → fromHexChar (hexTable.getD j 0) = some j := by
  decide

theorem hex_byte_rt (v : Nat) (h : v < 256) : ((v >>> 4) <<< 4) ||| (v &&& 15) = v := by
  have ho : ((v >>> 4) <<< 4) ||| (v &&& 15) = ((v >>> 4) <<< 4) + (v &&& 15) := by
    simp only [shrE, shlE, and15]
    exact lor_add_left 4 _ _ (by omega) (by omega)
  rw [ho]
  simp only [shrE, shlE, and15]
  omega

theorem hexDecode_encode : ∀ l : List Nat, (∀ x ∈ l, x < 256) →
    hexDecode (hexEncode l) = some l := by
  intro l
  induction l with
  | nil => intro _; rfl
  | cons v rest ih =>
    intro h
    have hv : v < 256 := h v (List.mem_cons_self _ _)
    have h16a : v >>> 4 < 16 := by simp only [shrE]; omega
    have h16b : v &&& 15 < 16 := by simp only [and15]; omega
    show hexDecode (hexTable.getD (v >>> 4) 0 :: hexTable.getD (v &&& 15) 0 :: hexEncode rest) = _
    simp only [hexDecode, hexTable_val _ h16a, hexTable_val _ h16b,
      ih (fun x hx => h x (List.mem_cons_of_mem _ hx))]
    rw [hex_byte_rt v hv]

theorem hexEncode_length (l : List Nat) : (hexEncode l).length = 2 * l.length := by
  induction l with
  | nil => rfl
  | cons v rest ih => simp only [hexEncode, List.length_cons, ih]; omega

theorem lowerByte_hexTable : ∀ j : Nat, j < 16 →
    lowerByte (hexTable.getD j 0) = hexTable.getD j 0 := by decide

theorem lowerByte_hexTable_all (j : Nat) : lowerByte (hexTable.getD j 0) = hexTable.getD j 0 := by
  by_cases h : j < 16
  · exact lowerByte_hexTable j h
  · rw [List.getD_eq_default]
    · rfl
    · show 16 ≤ j
      omega

theorem lowerStr_hexEncode (l : List Nat) : lowerStr (hexEncode l) = hexEncode l := by
  induction l with
  | nil => rfl
  | cons v rest ih =>
    show lowerByte (hexTable.getD (v >>> 4) 0) :: lowerByte (hexTable.getD (v &&& 15) 0) ::
      lowerStr (hexEncode rest) = _
    rw [lowerByte_hexTable_all, lowerByte_hexTable_all, ih]
    rfl

theorem upper_lower_alpha : ∀ j : Nat, j < 32 →
    upperByte (lowerByte (b32alpha.getD j 0)) = b32alpha.getD j 0 := by decide

theorem upper_lower_char (v : Nat) : upperByte (lowerByte (b32char v)) = b32char v :=
  upper_lower_alpha (v &&& 31) (Nat.lt_succ_of_le Nat.and_le_right)

theorem sha256Round_length (st : List Nat) (kw : Nat × Nat) :
    (sha256Round st kw).length = st.length := by
  unfold sha256Round
  split
  · simp
  · rfl

theorem foldl_round_length (l : List (Nat × Nat)) :
    ∀ st : List Nat, (l.foldl sha256Round st).length = st.length := by
  induction l with
  | nil => intro st; rfl
  | cons p rest ih =>
    intro st
    simp only [List.foldl_cons, ih, sha256Round_length]

theorem sha256Compress_length (h b : List Nat) (hh : h.length = 8) :
    (sha256Compress h b).length = 8 := by
  unfold sha256Compress
  rw [List.length_zipWith, foldl_round_length, hh]
  rfl

theorem foldl_compress_length (bs : List (List Nat)) :
    ∀ h : List Nat, h.length = 8 → (bs.foldl sha256Compress h).length = 8 := by
  induction bs with
  | nil => intro h hh; exact hh
  | cons b rest ih =>
    intro h hh
    simp only [List.foldl_cons]
    exact ih _ (sha256Compress_length h b hh)

theorem foldr_be32_length (l : List Nat) :
    (l.foldr (fun w acc => be32 w ++ acc) []).length = 4 * l.length := by
  induction l with
  | nil => rfl
  | cons w rest ih =>
    have hb : (be32 w).length = 4 := rfl
    simp only [List.foldr_cons, List.length_append, ih, List.length_cons, hb]
    omega

theorem sha256_length (msg : List Nat) : (sha256 msg).length = 32 := by
  unfold sha256
  rw [foldr_be32_length, foldl_compress_length]
  rfl

theorem foldr_be32_lt (l : List Nat) :
    ∀ x ∈ l.foldr (fun w acc => be32 w ++ acc) [], x < 256 := by
  induction l with
  | nil => intro x hx; cases hx
  | cons w rest ih =>
    intro x hx
    simp only [List.foldr_cons, List.mem_append] at hx
    rcases hx with hx | hx
    · simp only [be32, List.mem_cons, List.not_mem_nil, or_false] at hx
      rcases hx with rfl | rfl | rfl | rfl <;> omega
    · exact ih x hx

theorem sha256_lt (msg : List Nat) : ∀ x ∈ sha256 msg, x < 256 := by
  unfold sha256
  exact foldr_be32_lt _

theorem b32_len8_facts (l : List Nat) (hlen : l.length = 8) (hlt : ∀ x ∈ l, x < 256) :
    (b32encode l).length = 13 ∧ upperStr (lowerStr (b32encode l)) = b32encode l ∧
      b32decode (b32encode l) = some l := by
  rcases l with _ | ⟨s0, _ | ⟨s1, _ | ⟨s2, _ | ⟨s3, _ | ⟨s4, _ | ⟨s5, _ | ⟨s6, _ | ⟨s7, rest⟩⟩⟩⟩⟩⟩⟩⟩ <;>
    simp only [List.length_cons, List.length_nil] at hlen <;> try omega
  rcases rest with _ | ⟨s8, rest⟩
  · refine ⟨rfl, ?_, ?_⟩
    · show upperStr (lowerStr (b32char (s0 >>> 3) ::
        b32char (((s1 >>> 6) &&& 31) ||| ((s0 <<< 2) % 256 &&& 31)) ::
        b32char ((s1 >>> 1) &&& 31) ::
        b32char (((s2 >>> 4) &&& 31) ||| ((s1 <<< 4) % 256 &&& 31)) ::
        b32char ((s3 >>> 7) ||| ((s2 <<< 1) % 256 &&& 31)) ::
        b32char ((s3 >>> 2) &&& 31) ::
        b32char ((s4 >>> 5) ||| ((s3 <<< 3) % 256 &&& 31)) ::
        b32char (s4 &&& 31) ::
        [b32char (s5 >>> 3),
          b32char (((s6 >>> 6) &&& 31) ||| ((s5 <<< 2) % 256 &&& 31)),
          b32char ((s6 >>> 1) &&& 31),
          b32char (((s7 >>> 4) &&& 31) ||| ((s6 <<< 4) % 256 &&& 31)),
          b32char ((s7 <<< 1) % 256 &&& 31)])) = _
      simp only [upperStr, lowerStr, List.map_cons, List.map_nil, upper_lower_char]
      rfl
    · have m : ∀ x ∈ [s0, s1, s2, s3, s4, s5, s6, s7], x < 256 := hlt
      simp only [List.mem_cons, List.not_mem_nil, or_false] at m
      exact b32_roundtrip8 s0 s1 s2 s3 s4 s5 s6 s7
        (m s0 (by tauto)) (m s1 (by tauto)) (m s2 (by tauto)) (m s3 (by tauto))
        (m s4 (by tauto)) (m s5 (by tauto)) (m s6 (by tauto)) (m s7 (by tauto))
  · simp only [List.length_cons] at hlen
    omega

theorem hostname_short_rt (o : Options) (l : List Nat) (hlen : l.length = 8)
    (hlt : ∀ x ∈ l, x < 256) :
    HostnameToWireguardIP o (lowerStr (b32encode l)) =
      .ok ((o.WireguardNetworkCidr.addr.as16).take 8 ++ l) := by
  obtain ⟨h13, hul, hrt⟩ := b32_len8_facts l hlen hlt
  have hlen13 : (lowerStr (b32encode l)).length = 13 := by
    simp only [lowerStr, List.length_map, h13]
  unfold HostnameToWireguardIP
  simp only [hlen13]
  norm_num
  rw [show upperStr (lowerStr (b32encode l)) = b32encode l from hul, hrt]
  simp only [hlen]
  norm_num

theorem hostname_legacy_rt (o : Options) (hash pb : List Nat)
    (hpb : o.WireguardNetworkCidr.addr = GoAddr.v6 pb) (hpb16 : pb.length = 16)
    (hpbB : ∀ b ∈ pb, b < 256)
    (hhash32 : hash.length = 32) (hhB : ∀ x ∈ hash, x < 256)
    (hb0 : 0 < o.WireguardNetworkCidr.bits) (hb64 : o.WireguardNetworkCidr.bits ≤ 64) :
    HostnameToWireguardIP o (lowerStr (hexEncode
        ((pb.take 8 ++ hash.take 8).take (o.WireguardNetworkCidr.bits.toNat / 8) ++
          hash.take (16 - o.WireguardNetworkCidr.bits.toNat / 8)))) =
      .ok (pb.take 8 ++ hash.take 8) := by
  set pl := o.WireguardNetworkCidr.bits.toNat / 8 with hpl
  have hpl8 : pl ≤ 8 := by omega
  set old := (pb.take 8 ++ hash.take 8).take pl ++ hash.take (16 - pl) with hold
  have holdlen : old.length = 16 := by
    rw [hold]
    simp only [List.length_append, List.length_take, hpb16, hhash32]
    omega
  have holdB : ∀ x ∈ old, x < 256 := by
    intro x hx
    rw [hold] at hx
    simp only [List.mem_append] at hx
    rcases hx with hx | hx
    · rcases List.mem_append.mp (List.mem_of_mem_take hx) with h2 | h2
      · exact hpbB x (List.mem_of_mem_take h2)
      · exact hhB x (List.mem_of_mem_take h2)
    · exact hhB x (List.mem_of_mem_take hx)
  have hlab : lowerStr (hexEncode old) = hexEncode old := lowerStr_hexEncode old
  have hlablen : (hexEncode old).length = 32 := by rw [hexEncode_length, holdlen]
  unfold HostnameToWireguardIP
  rw [hlab]
  simp only [hlablen]
  norm_num
  rw [hexDecode_encode old holdB]
  simp only [holdlen]
  norm_num
  rw [hold]
  have htk : ((pb.take 8 ++ hash.take 8).take pl).length = pl := by
    simp only [List.length_take, List.length_append, hpb16, hhash32]
    omega
  rw [List.drop_append_of_le_length (by omega)]
  rw [← hpl, List.drop_take]
  simp only [Nat.sub_self, List.take_zero, List.nil_append]
  rw [List.take_take]
  have hm : min 8 (16 - pl) = 8 := by omega
  rw [hm, hpb]
  rfl

/-- C1: codec round trip.  For every server configuration whose IPv6 network
prefix has a length that is a positive multiple of 8 of at most 64 bits, and
every 32-byte public key, both DNS labels produced by
`WireguardPublicKeyToIPAndURLs` — the 13-character base32-hex short label and
the 32-character hex legacy label — are mapped by `HostnameToWireguardIP`
back to exactly the derived virtual IPv6 address (prefix address bytes 0..7
followed by the first 8 bytes of SHA-256 of the key); the short label equals
an expression in the key alone, so it does not depend on the prefix. -/
theorem C1_codec_roundtrip (o : Options) (pk pb : List Nat)
    (hpb : o.WireguardNetworkCidr.addr = GoAddr.v6 pb)
    (hpb16 : pb.length = 16)
    (hpbB : ∀ b ∈ pb, b < 256)
    (hb0 : 0 < o.WireguardNetworkCidr.bits)
    (hb64 : o.WireguardNetworkCidr.bits ≤ 64)
    (hb8 : o.WireguardNetworkCidr.bits % 8 = 0)
    (_hpk : pk.length = 32) :
    ∃ shortLabel legacyLabel,
      shortLabel = lowerStr (b32encode ((sha256 pk).take 8)) ∧
      shortLabel.length = 13 ∧ legacyLabel.length = 32 ∧
      (WireguardPublicKeyToIPAndURLs o pk 2).2.map GoURL.host =
        [shortLabel ++ [46] ++ ((o.BaseURL).getD ⟨[], []⟩).host,
         legacyLabel ++ [46] ++ ((o.BaseURL).getD ⟨[], []⟩).host] ∧
      HostnameToWireguardIP o shortLabel = .ok (WireguardPublicKeyToIPAndURLs o pk 2).1 ∧
      HostnameToWireguardIP o legacyLabel = .ok (WireguardPublicKeyToIPAndURLs o pk 2).1 ∧
      (WireguardPublicKeyToIPAndURLs o pk 2).1 = pb.take 8 ++ (sha256 pk).take 8 := by
  have hh32 : (sha256 pk).length = 32 := sha256_length pk
  have hhB : ∀ x ∈ sha256 pk, x < 256 := sha256_lt pk
  have hh8len : ((sha256 pk).take 8).length = 8 := by
    simp only [List.length_take]
    omega
  have hh8B : ∀ x ∈ (sha256 pk).take 8, x < 256 := fun x hx => hhB x (List.mem_of_mem_take hx)
  obtain ⟨h13, _hul, _hrt⟩ := b32_len8_facts _ hh8len hh8B
  have hip : (WireguardPublicKeyToIPAndURLs o pk 2).1 = pb.take 8 ++ (sha256 pk).take 8 := by
    unfold WireguardPublicKeyToIPAndURLs
    rw [hpb]
    rfl
  refine ⟨lowerStr (b32encode ((sha256 pk).take 8)),
    lowerStr (hexEncode
      ((pb.take 8 ++ (sha256 pk).take 8).take (o.WireguardNetworkCidr.bits.toNat / 8) ++
        (sha256 pk).take (16 - o.WireguardNetworkCidr.bits.toNat / 8))), rfl, ?_, ?_, ?_, ?_, ?_, hip⟩
  · simp only [lowerStr, List.length_map, h13]
  · rw [lowerStr_hexEncode, hexEncode_length]
    simp only [List.length_append, List.length_take, hpb16, hh32]
    omega
  · unfold WireguardPublicKeyToIPAndURLs
    rw [hpb]
    cases hB : o.BaseURL
    · rfl
    · rfl
  · rw [hip]
    have h := hostname_short_rt o _ hh8len hh8B
    rw [hpb] at h
    exact h
  · rw [hip]
    have := hostname_legacy_rt o (sha256 pk) pb hpb hpb16 hpbB hh32 hhB hb0 hb64
    exact this

/-- Witness for C1: the round-trip theorem applied to a concrete validated
configuration with a non-default `/64` prefix and a concrete key. -/
theorem C1_codec_roundtrip_witness :
    (testOpts64.WireguardNetworkCidr.addr =
        GoAddr.v6 [0xfd, 0x2d, 0x11, 0x22, 0x33, 0x44, 0x55, 0x66, 0, 0, 0, 0, 0, 0, 0, 0] ∧
      ([0xfd, 0x2d, 0x11, 0x22, 0x33, 0x44, 0x55, 0x66, 0, 0, 0, 0, 0, 0, 0, 0] :
          List Nat).length = 16 ∧
      0 < testOpts64.WireguardNetworkCidr.bits ∧
      testOpts64.WireguardNetworkCidr.bits ≤ 64 ∧
      testOpts64.WireguardNetworkCidr.bits % 8 = 0 ∧
      testKey1.length = 32) ∧
    (∃ shortLabel legacyLabel,
      shortLabel = lowerStr (b32encode ((sha256 testKey1).take 8)) ∧
      shortLabel.length = 13 ∧ legacyLabel.length = 32 ∧
      (WireguardPublicKeyToIPAndURLs testOpts64 testKey1 2).2.map GoURL.host =
        [shortLabel ++ [46] ++ ((testOpts64.BaseURL).getD ⟨[], []⟩).host,
         legacyLabel ++ [46] ++ ((testOpts64.BaseURL).getD ⟨[], []⟩).host] ∧
      HostnameToWireguardIP testOpts64 shortLabel =
        .ok (WireguardPublicKeyToIPAndURLs testOpts64 testKey1 2).1 ∧
      HostnameToWireguardIP testOpts64 legacyLabel =
        .ok (WireguardPublicKeyToIPAndURLs testOpts64 testKey1 2).1 ∧
      (WireguardPublicKeyToIPAndURLs testOpts64 testKey1 2).1 =
        ([0xfd, 0x2d, 0x11, 0x22, 0x33, 0x44, 0x55, 0x66, 0, 0, 0, 0, 0, 0, 0, 0] :
          List Nat).take 8 ++ (sha256 testKey1).take 8) :=
  ⟨⟨rfl, rfl, by decide, by decide, by decide, rfl⟩,
    C1_codec_roundtrip testOpts64 testKey1 _ rfl rfl (by decide) (by decide) (by decide)
      (by decide) rfl⟩

/-- C2: derivation determinism, bit-exact.  With prefix `fcca::/16`, the key
`Q3dubFlwwLnCpQTagjCckb1XLGtViZoBX1qHAZWV2gI=` derives the virtual IPv6
address `fcca::25a2:8a43:2e91:1543`, short label `4mh8kgpei4ak6` and legacy
label `fcca25a28a432e9115439439264ae85af84`; and the private key
`mCW7PwpK8iBmyXEFyGk55G24H0IU/AmJf5ZerzA3jGY=` has public key
`Y9psPgU9BNRCvjPR93RNghbJUPyVh0LXBTnbHb+0TgU=` (by curve25519), whose
legacy label is `fccabbaf8a9b77f93fa9fa657677155e`. -/
theorem C2_derivation_determinism :
    b64decode (strBytes ("Q3dubFlwwLnCpQTagjCckb1XLGtViZoBX1qHAZWV2gI=")) = some testKey1 ∧
    (WireguardPublicKeyToIPAndURLs testOpts testKey1 2).1 =
      [0xfc, 0xca, 0, 0, 0, 0, 0, 0, 0x25, 0xa2, 0x8a, 0x43, 0x2e, 0x91, 0x15, 0x43] ∧
    ipString (WireguardPublicKeyToIPAndURLs testOpts testKey1 2).1 =
      strBytes ("fcca::25a2:8a43:2e91:1543") ∧
    (WireguardPublicKeyToIPAndURLs testOpts testKey1 2).2.map GoURL.host =
      [strBytes ("4mh8kgpei4ak6.tunnel.example.com"),
       strBytes ("fcca25a28a432e9115439264ae85af84.tunnel.example.com")] ∧
    b64decode (strBytes ("mCW7PwpK8iBmyXEFyGk55G24H0IU/AmJf5ZerzA3jGY=")) = some testKey2Priv ∧
    x25519Base testKey2Priv = testKey2Pub ∧
    b64decode (strBytes ("Y9psPgU9BNRCvjPR93RNghbJUPyVh0LXBTnbHb+0TgU=")) = some testKey2Pub ∧
    ((WireguardPublicKeyToIPAndURLs testOpts testKey2Pub 1).2.map GoURL.host).getD 0 [] =
      strBytes ("fccabbaf8a9b77f93fa9fa657677155e.tunnel.example.com") := by
  refine ⟨by decide, by decide, by decide, by decide, by decide, by decide, by decide, by decide⟩

/-- C3: version ordering.  For every configuration and key, version 2
returns `[short, legacy]` and version 1 returns `[legacy, short]`; hence the
two versions return the same URLs with index 0 and 1 exchanged. -/
theorem C3_version_ordering (o : Options) (pk : List Nat) :
    ∃ shortURL legacyURL : GoURL,
      (WireguardPublicKeyToIPAndURLs o pk 2).2 = [shortURL, legacyURL] ∧
      (WireguardPublicKeyToIPAndURLs o pk 1).2 = [legacyURL, shortURL] ∧
      shortURL.host =
        lowerStr (b32encode ((sha256 pk).take 8)) ++ [46] ++ ((o.BaseURL).getD ⟨[], []⟩).host ∧
      (WireguardPublicKeyToIPAndURLs o pk 2).2.get? 0 =
        (WireguardPublicKeyToIPAndURLs o pk 1).2.get? 1 ∧
      (WireguardPublicKeyToIPAndURLs o pk 2).2.get? 1 =
        (WireguardPublicKeyToIPAndURLs o pk 1).2.get? 0 ∧
      ∀ u : GoURL, u ∈ (WireguardPublicKeyToIPAndURLs o pk 2).2 ↔
        u ∈ (WireguardPublicKeyToIPAndURLs o pk 1).2 := by
  refine ⟨_, _, rfl, rfl, ?_, rfl, rfl, ?_⟩
  · cases hB : o.BaseURL
    · rfl
    · rfl
  · intro u
    show u ∈ [_, _] ↔ u ∈ [_, _]
    simp only [List.mem_cons, List.not_mem_nil, or_false]
    tauto


theorem copyStep_spec (B : Nat) (hB : 1 ≤ B) (L : Int) :
    ∀ fuel : Nat, ∀ src : List Nat, ∀ n : Int, src.length < fuel →
      copyStep B L fuel n src =
        (if L ≤ n then ((0 : Nat), some CopyErr.limitReached)
         else (min src.length (L - n).toNat,
           if (src.length : Int) ≥ L - n then some CopyErr.limitReached else none)) := by
  intro fuel
  induction fuel with
  | zero =>
    intro src n h
    exact absurd h (Nat.not_lt_zero _)
  | succ fuel ih =>
    intro src n hlen
    by_cases hLn : L ≤ n
    · simp only [copyStep, if_pos hLn]
    · have h1 : (min B (L - n).toNat == 0) = false := by
        simp only [beq_eq_false_iff_ne, ne_eq]
        omega
      match src with
      | [] =>
        simp only [copyStep, if_neg hLn, h1, Bool.false_eq_true, if_false]
        rw [if_neg (by simp only [List.length_nil, Nat.cast_zero]; omega)]
        simp
      | x :: rest =>
        simp only [copyStep, if_neg hLn, h1, Bool.false_eq_true, if_false]
        have hdrop : ((x :: rest).drop (B ⊓ (L - n).toNat ⊓ (x :: rest).length)).length < fuel := by
          simp only [List.length_drop, List.length_cons] at hlen ⊢
          omega
        rw [ih _ _ hdrop]
        by_cases hLnd : L ≤ n + ↑(B ⊓ (L - n).toNat ⊓ (x :: rest).length)
        · rw [if_pos hLnd]
          dsimp only
          rw [if_pos (by simp only [List.length_cons] at hLnd ⊢; push_cast at hLnd ⊢; omega)]
          simp only [Prod.mk.injEq]
          refine ⟨?_, trivial⟩
          simp only [List.length_cons] at hLnd ⊢
          push_cast at hLnd
          omega
        · rw [if_neg hLnd]
          dsimp only
          simp only [Prod.mk.injEq, List.length_drop]
          constructor
          · simp only [List.length_cons] at hLnd ⊢
            push_cast at hLnd
            omega
          · by_cases hc : ((x :: rest).length : Int) ≥ L - n
            · rw [if_pos ?_, if_pos hc]
              simp only [List.length_cons] at hLnd hc ⊢
              push_cast at hLnd hc ⊢
              omega
            · rw [if_neg ?_, if_neg hc]
              simp only [List.length_cons] at hLnd hc ⊢
              push_cast at hLnd hc ⊢
              omega

/-- C4 counterexample: with limit L = 1 and a body of exactly L = 1 byte,
the copy ends with the sentinel limit-reached error (the reader returns the
sentinel instead of EOF once the running total has reached the limit), so a
body of exactly L bytes is NOT read to completion without the sentinel,
contrary to the claim. -/
theorem C4_body_limit_counterexample :
    limitedBodyCopy 32768 1 [7] = (1, some CopyErr.limitReached) ∧
    limitedBodyCopy 32768 1 [7] ≠ (1, none) := by
  refine ⟨by decide, by decide⟩

/-- C4 (amended): a body wrapped by LimitBody(L)/SetBodyLimit delivers at
most L bytes in total (exactly `min (body length) L`), and the sentinel
limit-reached error is returned exactly when the body holds at least L
bytes — at byte L the next read returns the sentinel instead of EOF — so a
body of fewer than L bytes (not of exactly L bytes) is read to completion
without the sentinel error. -/
theorem C4_body_limit_amended (B : Nat) (L : Int) (src : List Nat) (hB : 1 ≤ B) (hL : 1 ≤ L) :
    limitedBodyCopy B L src =
      (min src.length L.toNat,
        if (src.length : Int) ≥ L then some CopyErr.limitReached else none) ∧
    ((min src.length L.toNat : Nat) : Int) ≤ L ∧
    ((src.length : Int) < L → limitedBodyCopy B L src = (src.length, none)) := by
  have h := copyStep_spec B hB L (src.length + 1) src 0 (by omega)
  rw [if_neg (by omega)] at h
  simp only [Int.sub_zero] at h
  refine ⟨h, by omega, ?_⟩
  intro hlt
  rw [limitedBodyCopy, h, if_neg (by omega)]
  simp only [Prod.mk.injEq]
  constructor
  · omega
  · trivial

/-- Witness for the amended C4 at buffer size 32768, limit 5, a 3-byte
body. -/
theorem C4_body_limit_amended_witness :
    (1 ≤ 32768 ∧ 1 ≤ (5 : Int)) ∧
    (limitedBodyCopy 32768 5 [10, 11, 12] =
        (min ([10, 11, 12] : List Nat).length (5 : Int).toNat,
          if (([10, 11, 12] : List Nat).length : Int) ≥ 5 then some CopyErr.limitReached
          else none) ∧
      ((min ([10, 11, 12] : List Nat).length (5 : Int).toNat : Nat) : Int) ≤ 5 ∧
      ((([10, 11, 12] : List Nat).length : Int) < 5 →
        limitedBodyCopy 32768 5 [10, 11, 12] = (([10, 11, 12] : List Nat).length, none))) :=
  ⟨⟨by decide, by decide⟩, C4_body_limit_amended 32768 5 [10, 11, 12] (by decide) (by decide)⟩


theorem hexDecode_len : ∀ (s d : List Nat), hexDecode s = some d → 2 * d.length = s.length
  | [], d, h => by
    simp only [hexDecode, Option.some.injEq] at h
    subst h
    rfl
  | [_], _, h => by
    simp only [hexDecode] at h
    exact Option.noConfusion h
  | c1 :: c2 :: rest, d, h => by
    simp only [hexDecode] at h
    cases hc1 : fromHexChar c1 with
    | none => rw [hc1] at h; cases hc2 : fromHexChar c2 <;> rw [hc2] at h <;> cases h
    | some a =>
      rw [hc1] at h
      cases hc2 : fromHexChar c2 with
      | none => rw [hc2] at h; cases h
      | some b =>
        rw [hc2] at h
        cases hr : hexDecode rest with
        | none => rw [hr] at h; cases h
        | some tail =>
          rw [hr] at h
          simp only [Option.some.injEq] at h
          subst h
          have := hexDecode_len rest tail hr
          simp only [List.length_cons]
          omega

/-- C5: codec rejection taxonomy.  `HostnameToWireguardIP` treats every
label whose length is not 32 as short form: after uppercasing, a base32-hex
decode failure gives the decode-new-hostname error, a decoded length other
than 8 gives the invalid-new-hostname-length error, and otherwise the call
succeeds; a label of length exactly 32 is treated as legacy form, failing
with the decode-old-hostname error exactly when hex decoding fails.  No
other outcome is possible. -/
theorem C5_rejection_taxonomy (o : Options) (label : List Nat) :
    (label.length ≠ 32 →
      (b32decode (upperStr label) = none ∧
          HostnameToWireguardIP o label = .error HostnameDecodeErr.decodeNew) ∨
      (∃ d, b32decode (upperStr label) = some d ∧ d.length ≠ 8 ∧
          HostnameToWireguardIP o label = .error HostnameDecodeErr.invalidNewLen) ∨
      (∃ d, b32decode (upperStr label) = some d ∧ d.length = 8 ∧
          HostnameToWireguardIP o label =
            .ok ((o.WireguardNetworkCidr.addr.as16).take 8 ++ d))) ∧
    (label.length = 32 →
      (hexDecode label = none ∧
          HostnameToWireguardIP o label = .error HostnameDecodeErr.decodeOld) ∨
      (∃ d, hexDecode label = some d ∧ d.length = 16 ∧
          HostnameToWireguardIP o label =
            .ok ((o.WireguardNetworkCidr.addr.as16).take 8 ++
              ((d.drop (o.WireguardNetworkCidr.bits.toNat / 8)).take 8)))) := by
  constructor
  · intro hne
    have hbeq : (label.length == 32) = false := beq_eq_false_iff_ne.mpr hne
    unfold HostnameToWireguardIP
    simp only [hbeq, Bool.false_eq_true, if_false]
    cases hd : b32decode (upperStr label) with
    | none =>
      left
      exact ⟨rfl, rfl⟩
    | some d =>
      by_cases h8 : d.length = 8
      · right; right
        refine ⟨d, rfl, h8, ?_⟩
        show (if d.length ≠ 8 then Except.error HostnameDecodeErr.invalidNewLen
          else Except.ok (List.take 8 o.WireguardNetworkCidr.addr.as16 ++ d)) = _
        rw [if_neg (by omega)]
      · right; left
        refine ⟨d, rfl, h8, ?_⟩
        show (if d.length ≠ 8 then Except.error HostnameDecodeErr.invalidNewLen
          else Except.ok (List.take 8 o.WireguardNetworkCidr.addr.as16 ++ d)) = _
        rw [if_pos (by omega)]
  · intro heq
    have hbeq : (label.length == 32) = true := beq_iff_eq.mpr heq
    unfold HostnameToWireguardIP
    simp only [hbeq, if_true]
    cases hd : hexDecode label with
    | none =>
      left
      exact ⟨rfl, rfl⟩
    | some d =>
      right
      have h16 : d.length = 16 := by
        have := hexDecode_len label d hd
        omega
      refine ⟨d, rfl, h16, ?_⟩
      show (if d.length ≠ 16 then Except.error HostnameDecodeErr.invalidOldLen
        else Except.ok (List.take 8 o.WireguardNetworkCidr.addr.as16 ++
          (List.take 8 (List.drop (o.WireguardNetworkCidr.bits.toNat / 8) d)))) = _
      rw [if_neg (by omega)]

/-- Witness for C5: the label `!!!` (length 3) is treated as short form and
fails base32-hex decoding with the decode-new-hostname error. -/
theorem C5_rejection_taxonomy_witness :
    (strBytes ("!!!")).length ≠ 32 ∧
    ((b32decode (upperStr (strBytes ("!!!"))) = none ∧
        HostnameToWireguardIP testOpts (strBytes ("!!!")) =
          .error HostnameDecodeErr.decodeNew) ∨
      (∃ d, b32decode (upperStr (strBytes ("!!!"))) = some d ∧ d.length ≠ 8 ∧
          HostnameToWireguardIP testOpts (strBytes ("!!!")) =
            .error HostnameDecodeErr.invalidNewLen) ∨
      (∃ d, b32decode (upperStr (strBytes ("!!!"))) = some d ∧ d.length = 8 ∧
          HostnameToWireguardIP testOpts (strBytes ("!!!")) =
            .ok ((testOpts.WireguardNetworkCidr.addr.as16).take 8 ++ d))) :=
  ⟨by decide, (C5_rejection_taxonomy testOpts (strBytes ("!!!"))).1 (by decide)⟩

theorem validateOptions_ok (o : Options) (hC : validOptions o) :
    validateOptions (some o) = .ok (validatedRecord o) := by
  obtain ⟨c1, c2, c3, c4, c5, c6, c7, c8, c9, c10, c11⟩ := hC
  simp only [validateOptions]
  rw [if_neg (by rw [c1]; exact Bool.false_ne_true),
    if_neg (by rw [c2]; exact Bool.false_ne_true),
    if_neg (by rw [c3]; exact Bool.false_ne_true),
    if_neg (by rw [c4]; exact Bool.false_ne_true),
    if_neg (by rw [c5]; exact Bool.false_ne_true),
    if_neg (by rw [c6]; simp),
    if_neg (by omega),
    if_neg (by omega),
    if_neg (by omega),
    if_neg (by rw [c10]; simp),
    if_neg (by omega)]
  rfl

theorem validateOptions_ok_inv (o r : Options) (h : validateOptions (some o) = .ok r) :
    validOptions o ∧ r = validatedRecord o := by
  simp only [validateOptions] at h
  by_cases c1 : o.BaseURL.isNone = true
  · rw [if_pos c1] at h; exact absurd h (by simp)
  · rw [if_neg c1] at h
    by_cases c2 : o.WireguardEndpoint.isEmpty = true
    · rw [if_pos c2] at h; exact absurd h (by simp)
    · rw [if_neg c2] at h
      by_cases c3 : (splitHostPort o.WireguardEndpoint).isNone = true
      · rw [if_pos c3] at h; exact absurd h (by simp)
      · rw [if_neg c3] at h
        by_cases c4 : (o.WireguardPort == 0) = true
        · rw [if_pos c4] at h; exact absurd h (by simp)
        · rw [if_neg c4] at h
          by_cases c5 : o.WireguardKey.isZero = true
          · rw [if_pos c5] at h; exact absurd h (by simp)
          · rw [if_neg c5] at h
            by_cases c6 : (!o.WireguardKey.isPrivate) = true
            · rw [if_pos c6] at h; exact absurd h (by simp)
            · rw [if_neg c6] at h
              by_cases c7 : (effServerIP o).bitLen ≠ 128
              · rw [if_pos c7] at h; exact absurd h (by simp)
              · rw [if_neg c7] at h
                by_cases c8 : (effCidr o).bits > 64
                · rw [if_pos c8] at h; exact absurd h (by simp)
                · rw [if_neg c8] at h
                  by_cases c9 : (effCidr o).bits % 8 ≠ 0
                  · rw [if_pos c9] at h; exact absurd h (by simp)
                  · rw [if_neg c9] at h
                    by_cases c10 : (!cidrContains (effCidr o) (effServerIP o)) = true
                    · rw [if_pos c10] at h; exact absurd h (by simp)
                    · rw [if_neg c10] at h
                      by_cases c11 : effPeerRegisterInterval o ≥ effPeerTimeout o
                      · rw [if_pos c11] at h; exact absurd h (by simp)
                      · rw [if_neg c11] at h
                        simp only [Except.ok.injEq] at h
                        refine ⟨⟨?_, ?_, ?_, ?_, ?_, ?_, ?_, ?_, ?_, ?_, ?_⟩, h.symm⟩
                        · simp only [Bool.not_eq_true] at c1; exact c1
                        · simp only [Bool.not_eq_true] at c2; exact c2
                        · simp only [Bool.not_eq_true] at c3; exact c3
                        · simp only [Bool.not_eq_true] at c4; exact c4
                        · simp only [Bool.not_eq_true] at c5; exact c5
                        · simpa using c6
                        · omega
                        · omega
                        · omega
                        · simpa using c10
                        · omega

/-- C6: validator coverage.  `Validate` errors on a nil configuration; a
non-nil configuration validates successfully exactly when none of the
checked conditions is violated (base URL present, endpoint present and a
valid host:port, port nonzero, key nonzero and private, effective server IP
128-bit, effective prefix at most 64 bits and a multiple of 8, server IP
inside the prefix, effective re-register interval below the effective
inactivity timeout); on success it returns the configuration with the
defaults filled in for MTU, server IP, prefix, dial timeout, re-register
interval and inactivity timeout. -/
theorem C6_validator_coverage (o : Options) :
    validateOptions none = .error ("options is nil") ∧
    ((∃ r, validateOptions (some o) = .ok r) ↔ validOptions o) ∧
    (validOptions o → validateOptions (some o) = .ok (validatedRecord o)) :=
  ⟨rfl,
    ⟨fun h => (validateOptions_ok_inv o h.choose h.choose_spec).1,
      fun hC => ⟨_, validateOptions_ok o hC⟩⟩,
    validateOptions_ok o⟩

theorem validateOptions_bits (o0 o : Options) (h : validateOptions (some o0) = .ok o) :
    0 < o.WireguardNetworkCidr.bits ∧ o.WireguardNetworkCidr.bits ≤ 64 ∧
    o.WireguardNetworkCidr.bits % 8 = 0 ∧
    cidrContains o.WireguardNetworkCidr o.WireguardServerIP = true := by
  obtain ⟨hC, hr⟩ := validateOptions_ok_inv o0 o h
  obtain ⟨_, _, _, _, _, _, _, c8, c9, c10, _⟩ := hC
  subst hr
  have hpos : 0 < (effCidr o0).bits := by
    by_cases hb : o0.WireguardNetworkCidr.bits ≤ 0
    · unfold effCidr
      rw [if_pos hb]
      decide
    · unfold effCidr
      rw [if_neg hb]
      omega
  exact ⟨hpos, c8, c9, c10⟩

/-- Witness for C6: the concrete test configuration validates and gets its
defaults filled. -/
theorem C6_validator_coverage_witness :
    validOptions testOpts ∧ validateOptions (some testOpts) = .ok (validatedRecord testOpts) :=
  ⟨by unfold validOptions; decide, (C6_validator_coverage testOpts).2.2 (by unfold validOptions; decide)⟩


/-- C7: peer staleness.  For every ingress request whose subdomain label
decodes to a virtual IPv6 address, if the peer cache has no entry for that
address, or the entry's last handshake lies more than PeerTimeout in the
past, or the device no longer has the cached public key as a peer, then
`handleTunnel` answers 502 "Peer is not connected." and never reaches the
reverse-proxy dial. -/
theorem C7_peer_staleness (o : Options) (cache : List (List Nat × CachedPeer))
    (devicePeers : List (List Nat)) (now : Int) (host ip : List Nat)
    (hdecode : HostnameToWireguardIP o (lastHyphenSegment (splitHostname host).1) = .ok ip)
    (hcond : cache.lookup ip = none ∨
      (∃ p, cache.lookup ip = some p ∧ now - p.lastHandshake > o.PeerTimeout) ∨
      (∃ p, cache.lookup ip = some p ∧ devicePeers.contains p.key = false)) :
    handleTunnel o cache devicePeers now host = .notConnected ∧
    ∀ ip2, handleTunnel o cache devicePeers now host ≠ .dialPeer ip2 := by
  have hmain : handleTunnel o cache devicePeers now host = .notConnected := by
    unfold handleTunnel
    dsimp only
    rw [hdecode]
    dsimp only
    rcases hcond with hnone | ⟨p, hp, hstale⟩ | ⟨p, hp, hdev⟩
    · rw [hnone]
    · rw [hp]
      show (if now - p.lastHandshake > o.PeerTimeout then TunnelOutcome.notConnected
        else if !(devicePeers.contains p.key) then TunnelOutcome.notConnected
        else TunnelOutcome.dialPeer ip) = _
      rw [if_pos hstale]
    · rw [hp]
      show (if now - p.lastHandshake > o.PeerTimeout then TunnelOutcome.notConnected
        else if !(devicePeers.contains p.key) then TunnelOutcome.notConnected
        else TunnelOutcome.dialPeer ip) = _
      by_cases hstale : now - p.lastHandshake > o.PeerTimeout
      · rw [if_pos hstale]
      · rw [if_neg hstale, if_pos (by rw [hdev]; rfl)]
  exact ⟨hmain, fun ip2 h => by rw [hmain] at h; cases h⟩

theorem findSchemeSep_no58 : ∀ (s : List Nat) (i : Nat) (rest : List Nat),
    (∀ c ∈ s, c ≠ 58) → findSchemeSep (s ++ 58 :: 47 :: 47 :: rest) i = some (i + s.length)
  | [], i, rest, _ => by
    show findSchemeSep (58 :: 47 :: 47 :: rest) i = some (i + 0)
    norm_num [findSchemeSep]
  | c :: s', i, rest, h => by
    have hc : (c == 58) = false :=
      beq_eq_false_iff_ne.mpr (h c (List.mem_cons_self _ _))
    have ih := findSchemeSep_no58 s' (i + 1) rest (fun x hx => h x (List.mem_cons_of_mem _ hx))
    cases s' with
    | nil =>
      show findSchemeSep (c :: 58 :: 47 :: 47 :: rest) i = some (i + 1)
      simp only [findSchemeSep, hc, Bool.false_and, Bool.false_eq_true, if_false]
      norm_num
    | cons c2 t2 =>
      cases t2 with
      | nil =>
        show findSchemeSep (c :: c2 :: 58 :: 47 :: 47 :: rest) i = some (i + 2)
        simp only [findSchemeSep, hc, Bool.false_and, Bool.false_eq_true, if_false]
        have hc2 : (c2 == 58 && (58 == 47 : Bool) && (47 == 47 : Bool)) = false := by
          cases hb : (c2 == 58) <;> rfl
        rw [hc2]
        norm_num
      | cons c3 t3 =>
        show findSchemeSep (c :: c2 :: c3 :: (t3 ++ 58 :: 47 :: 47 :: rest)) i
          = some (i + (c :: c2 :: c3 :: t3).length)
        simp only [findSchemeSep, hc, Bool.false_and, Bool.false_eq_true, if_false]
        simp only [List.cons_append, List.length_cons] at ih ⊢
        rw [ih]
        simp only [Option.some.injEq]
        omega

theorem takeWhile_all (p : Nat → Bool) : ∀ l : List Nat, (∀ c ∈ l, p c = true) →
    l.takeWhile p = l := by
  intro l
  induction l with
  | nil => intro _; rfl
  | cons c rest ih =>
    intro h
    have h1 := h c (List.mem_cons_self _ _)
    simp [List.takeWhile_cons, h1, ih (fun x hx => h x (List.mem_cons_of_mem _ hx))]

theorem hexChar_unres (j : Nat) :
    ((hexTable.getD j 0) != 47 && (hexTable.getD j 0) != 63 && (hexTable.getD j 0) != 35)
      = true := by
  by_cases h : j < 16
  · have hall : ∀ j : Nat, j < 16 →
        ((hexTable.getD j 0) != 47 && (hexTable.getD j 0) != 63 &&
          (hexTable.getD j 0) != 35) = true := by decide
    exact hall j h
  · rw [List.getD_eq_default]
    · rfl
    · show 16 ≤ j
      omega

theorem hexEncode_unres (l : List Nat) :
    ∀ c ∈ hexEncode l, (c != 47 && c != 63 && c != 35) = true := by
  induction l with
  | nil => intro c hc; cases hc
  | cons v rest ih =>
    intro c hc
    have hc2 : c ∈ hexTable.getD (v >>> 4) 0 :: hexTable.getD (v &&& 15) 0 ::
      hexEncode rest := hc
    simp only [List.mem_cons] at hc2
    rcases hc2 with rfl | rfl | hc2
    · exact hexChar_unres _
    · exact hexChar_unres _
    · exact ih c hc2

theorem parseURLHost_std (scheme host : List Nat) (hs : ∀ c ∈ scheme, c ≠ 58)
    (hh : ∀ c ∈ host, (c != 47 && c != 63 && c != 35) = true) :
    parseURLHost (scheme ++ strBytes ("://") ++ host) = some host := by
  unfold parseURLHost
  have hsep : strBytes ("://") ++ host = 58 :: 47 :: 47 :: host := rfl
  have h1 : findSchemeSep (scheme ++ strBytes ("://") ++ host) 0 = some scheme.length := by
    rw [List.append_assoc, hsep]
    have h := findSchemeSep_no58 scheme 0 host hs
    simpa using h
  rw [h1]
  dsimp only
  have h2 : (scheme ++ strBytes ("://") ++ host).drop (scheme.length + 3) = host := by
    have hl : scheme.length + 3 = (scheme ++ strBytes ("://")).length := by
      simp [strBytes]
    rw [hl, List.drop_left]
  rw [h2, takeWhile_all _ host hh]

/-- C8: legacy endpoint status split.  `postTun` responds 201 when the
device previously had no peer for the submitted public key and 200 when it
already existed, and in both cases the hostname equals the host portion of
the first tunnel URL computed under forced version 1: the 32-character
legacy label, a dot, and the base host. -/
theorem C8_legacy_status_split (o : Options) (devicePeers : List (List Nat)) (pk : List Nat) (u : GoURL)
    (pb : List Nat)
    (hbase : o.BaseURL = some u)
    (hscheme : ∀ c ∈ u.scheme, c ≠ 58)
    (hhost : ∀ c ∈ u.host, (c != 47 && c != 63 && c != 35) = true)
    (hpb : o.WireguardNetworkCidr.addr = GoAddr.v6 pb) (hpb16 : pb.length = 16)
    (hb0 : 0 < o.WireguardNetworkCidr.bits) (hb64 : o.WireguardNetworkCidr.bits ≤ 64) :
    postTun o devicePeers pk =
      ((if devicePeers.contains pk then 200 else 201),
        ((WireguardPublicKeyToIPAndURLs o pk 1).2.map GoURL.host).getD 0 []) ∧
    ∃ legacyLabel,
      ((WireguardPublicKeyToIPAndURLs o pk 1).2.map GoURL.host).getD 0 [] =
        legacyLabel ++ [46] ++ u.host ∧
      legacyLabel.length = 32 := by
  have hh32 : (sha256 pk).length = 32 := sha256_length pk
  set pl := o.WireguardNetworkCidr.bits.toNat / 8 with hplDef
  have hpl8 : pl ≤ 8 := by omega
  set lab := lowerStr (hexEncode
    ((pb.take 8 ++ (sha256 pk).take 8).take pl ++ (sha256 pk).take (16 - pl))) with hlab
  have hurls : (WireguardPublicKeyToIPAndURLs o pk 1).2 =
      [⟨u.scheme, lab ++ [46] ++ u.host⟩, ⟨u.scheme,
        lowerStr (b32encode ((sha256 pk).take 8)) ++ [46] ++ u.host⟩] := by
    unfold WireguardPublicKeyToIPAndURLs
    rw [hpb, hbase]
    rfl
  have hlab32 : lab.length = 32 := by
    rw [hlab, lowerStr_hexEncode, hexEncode_length]
    simp only [List.length_append, List.length_take, hpb16, hh32]
    omega
  refine ⟨?_, lab, ?_, hlab32⟩
  · have hfull : ∀ c ∈ lab ++ [46] ++ u.host, (c != 47 && c != 63 && c != 35) = true := by
      intro c hc
      simp only [List.append_assoc, List.mem_append, List.mem_cons,
        List.not_mem_nil, or_false] at hc
      rcases hc with hc | rfl | hc
      · rw [hlab, lowerStr_hexEncode] at hc
        exact hexEncode_unres _ c hc
      · rfl
      · exact hhost c hc
    have hreg : registerClient o devicePeers 1 pk =
        ((WireguardPublicKeyToIPAndURLs o pk 1).2,
          (WireguardPublicKeyToIPAndURLs o pk 1).1, devicePeers.contains pk) := rfl
    unfold postTun
    rw [hreg, hurls]
    dsimp only
    simp only [urlString]
    rw [parseURLHost_std u.scheme (lab ++ [46] ++ u.host) hscheme hfull]
    dsimp only
    rfl
  · rw [hurls]
    rfl

/-- Witness for C7: an empty peer registry makes a well-formed tunnel
request answer "Peer is not connected.". -/
theorem C7_peer_staleness_witness :
    HostnameToWireguardIP testOpts
        (lastHyphenSegment (splitHostname
          (strBytes ("4mh8kgpei4ak6.tunnel.example.com"))).1) =
      .ok [0xfc, 0xca, 0, 0, 0, 0, 0, 0, 0x25, 0xa2, 0x8a, 0x43, 0x2e, 0x91, 0x15, 0x43] ∧
    (handleTunnel testOpts [] [] 0 (strBytes ("4mh8kgpei4ak6.tunnel.example.com")) =
        .notConnected ∧
      ∀ ip2, handleTunnel testOpts [] [] 0
          (strBytes ("4mh8kgpei4ak6.tunnel.example.com")) ≠ .dialPeer ip2) :=
  ⟨rfl,
    C7_peer_staleness testOpts [] [] 0 (strBytes ("4mh8kgpei4ak6.tunnel.example.com"))
      [0xfc, 0xca, 0, 0, 0, 0, 0, 0, 0x25, 0xa2, 0x8a, 0x43, 0x2e, 0x91, 0x15, 0x43]
      rfl (Or.inl rfl)⟩

/-- Witness for C8: registering a fresh key against an empty device peer
list gives status 201 and the legacy hostname. -/
theorem C8_legacy_status_split_witness :
    (testOpts.BaseURL = some ⟨strBytes ("https"), strBytes ("tunnel.example.com")⟩ ∧
      (∀ c ∈ (strBytes ("https") : List Nat), c ≠ 58) ∧
      testOpts.WireguardNetworkCidr.addr =
        GoAddr.v6 [0xfc, 0xca, 0, 0, 0, 0, 0, 0, 0, 0, 0, 0, 0, 0, 0, 0]) ∧
    (postTun testOpts [] testKey1 =
        ((if ([] : List (List Nat)).contains testKey1 then 200 else 201),
          ((WireguardPublicKeyToIPAndURLs testOpts testKey1 1).2.map GoURL.host).getD 0 []) ∧
      ∃ legacyLabel,
        ((WireguardPublicKeyToIPAndURLs testOpts testKey1 1).2.map GoURL.host).getD 0 [] =
          legacyLabel ++ [46] ++ (⟨strBytes ("https"), strBytes ("tunnel.example.com")⟩ :
            GoURL).host ∧
        legacyLabel.length = 32) :=
  ⟨⟨rfl, by decide, rfl⟩,
    C8_legacy_status_split testOpts [] testKey1
      ⟨strBytes ("https"), strBytes ("tunnel.example.com")⟩
      [0xfc, 0xca, 0, 0, 0, 0, 0, 0, 0, 0, 0, 0, 0, 0, 0, 0]
      rfl (by decide) (by decide) rfl rfl (by decide) (by decide)⟩

/-! ### C9: rate-limit canonicalization -/


/-- Bitwise `and` of a list with a constant replicate, pointwise. -/
theorem zipWith_and_replicate (c : Nat) : ∀ l : List Nat,
    List.zipWith (fun x y => x &&& y) l (List.replicate l.length c) = l.map (· &&& c) := by
  intro l
  induction l with
  | nil => rfl
  | cons x rest ih =>
    simp only [List.length_cons, List.replicate_succ, List.zipWith_cons_cons, List.map_cons]
    rw [ih]

/-- The replicate-8 specialisation, stated over any 8-element list. -/
theorem zipWith_and_replicate8 (c : Nat) (l : List Nat) (h : l.length = 8) :
    List.zipWith (fun x y => x &&& y) l (List.replicate 8 c) = l.map (· &&& c) := by
  rw [← h]
  exact zipWith_and_replicate c l

/-- Masking every byte with `0` yields the zero list. -/
theorem map_and_zero : ∀ l : List Nat, l.map (· &&& 0) = List.replicate l.length 0 := by
  intro l
  induction l with
  | nil => rfl
  | cons x rest ih =>
    simp only [List.map_cons, List.length_cons, List.replicate_succ]
    rw [ih, Nat.and_zero]

/-- Applying the `/64` CIDR mask to a 16-byte address keeps the first 8
bytes (masked with `255`, i.e. unchanged for bytes) and zeroes the rest. -/
theorem mask64_split (b : List Nat) (hlen : b.length = 16) :
    List.zipWith (fun x y => x &&& y) b cidrMask64 =
      (b.take 8).map (· &&& 255) ++ List.replicate 8 0 := by
  have htk : (b.take 8).length = 8 := by
    simp only [List.length_take]
    omega
  have hdr : (b.drop 8).length = 8 := by
    simp only [List.length_drop]
    omega
  conv_lhs => rw [← List.take_append_drop 8 b]
  rw [cidrMask64]
  rw [List.zipWith_append _ _ _ _ _ (by rw [htk, List.length_replicate])]
  rw [zipWith_and_replicate8 255 _ htk, zipWith_and_replicate8 0 _ hdr, map_and_zero, hdr]

/-- **C9** Rate-limit key canonicalization: two textual IPv6 addresses whose
parsed forms share the same upper 64 bits are mapped by `canonicalizeIP` to
the same string, namely the address masked to `/64`; a string whose first
`.`/`:` scan hits a dot (IPv4) and a string that does not parse as an IP are
both returned unchanged. -/
theorem C9_ratelimit_canonicalization (s1 s2 b1 b2 : List Nat)
    (hf1 : s1.find? (fun c => c == 46 || c == 58) = some 58)
    (hf2 : s2.find? (fun c => c == 46 || c == 58) = some 58)
    (hp1 : goParseIP s1 = some b1) (hp2 : goParseIP s2 = some b2)
    (hl1 : b1.length = 16) (hl2 : b2.length = 16)
    (hu : b1.take 8 = b2.take 8) :
    canonicalizeIP s1 = canonicalizeIP s2 ∧
    canonicalizeIP s1 = ipString ((ipMask b1 cidrMask64).getD []) ∧
    (∀ s : List Nat, s.find? (fun c => c == 46 || c == 58) = some 46 →
      canonicalizeIP s = s) ∧
    (∀ s : List Nat, goParseIP s = none → canonicalizeIP s = s) := by
  have hmasklen : cidrMask64.length = 16 := rfl
  have hform : ∀ s b : List Nat, s.find? (fun c => c == 46 || c == 58) = some 58 →
      goParseIP s = some b → b.length = 16 →
      canonicalizeIP s = ipString ((b.take 8).map (· &&& 255) ++ List.replicate 8 0) := by
    intro s b hf hp hl
    unfold canonicalizeIP
    rw [hf]
    dsimp only
    rw [hp]
    dsimp only
    unfold ipMask
    rw [if_neg (by rw [hl, hmasklen]; omega)]
    dsimp only
    rw [mask64_split b hl]
  refine ⟨?_, ?_, ?_, ?_⟩
  · rw [hform s1 b1 hf1 hp1 hl1, hform s2 b2 hf2 hp2 hl2, hu]
  · rw [hform s1 b1 hf1 hp1 hl1]
    unfold ipMask
    rw [if_neg (by rw [hl1, hmasklen]; omega), Option.getD_some, mask64_split b1 hl1]
  · intro s hf
    unfold canonicalizeIP
    rw [hf]
  · intro s hp
    cases hf : s.find? (fun c => c == 46 || c == 58) with
    | none =>
      unfold canonicalizeIP
      rw [hf]
    | some c =>
      have hpred := List.find?_some hf
      simp only [Bool.or_eq_true, beq_iff_eq] at hpred
      rcases hpred with rfl | rfl
      · unfold canonicalizeIP
        rw [hf]
      · unfold canonicalizeIP
        rw [hf]
        dsimp only
        rw [hp]

theorem C9_ratelimit_canonicalization_witness :
    canonicalizeIP (strBytes "2001:db8::1:2") = canonicalizeIP (strBytes "2001:db8::3") ∧
    canonicalizeIP (strBytes "2001:db8::1:2") = strBytes "2001:db8::" :=
  ⟨(C9_ratelimit_canonicalization (strBytes "2001:db8::1:2") (strBytes "2001:db8::3")
      [32, 1, 13, 184, 0, 0, 0, 0, 0, 0, 0, 0, 0, 1, 0, 2]
      [32, 1, 13, 184, 0, 0, 0, 0, 0, 0, 0, 0, 0, 0, 0, 3]
      (by decide) (by decide) (by decide) (by decide)
      (by decide) (by decide) (by decide)).1,
   by decide⟩

/-! ### C10: the implicit prefix invariant -/


/-- `getD` below index 8 is unchanged by `take 8`. -/
theorem getD_take8 (l : List Nat) (i : Nat) (h : i < 8) :
    (l.take 8).getD i 0 = l.getD i 0 := by
  simp [List.getD_eq_getElem?_getD, List.getElem?_take, h]

/-- Mask bytes past the CIDR length are zero. -/
theorem maskByte_zero (bits i : Nat) (h : bits ≤ 8 * i) : maskByte bits i = 0 := by
  unfold maskByte
  rw [if_neg (by omega), if_pos h]

/-- Two byte strings agreeing on their first 8 bytes agree under any mask
of at most 64 bits. -/
theorem maskedEq_of_take8 (pb ip : List Nat) (bits : Nat)
    (hlen : pb.length = 16) (hip : ip.take 8 = pb.take 8) (hb : bits ≤ 64) :
    maskedEqBytes pb ip bits = true := by
  unfold maskedEqBytes
  rw [List.all_eq_true]
  intro i hi
  rw [List.mem_range] at hi
  by_cases h8 : i < 8
  · have : ip.getD i 0 = pb.getD i 0 := by
      rw [← getD_take8 ip i h8, ← getD_take8 pb i h8, hip]
    rw [this]
    exact beq_self_eq_true _
  · rw [maskByte_zero bits i (by omega), Nat.and_zero, Nat.and_zero]
    exact beq_self_eq_true _

/-- Taking 8 from `take 8 xs ++ t` recovers `take 8 xs` (16-byte `xs`). -/
theorem take8_append (pb t : List Nat) (hlen : pb.length = 16) :
    (pb.take 8 ++ t).take 8 = pb.take 8 := by
  have h : (pb.take 8).length = 8 := by
    simp only [List.length_take]
    omega
  calc (pb.take 8 ++ t).take 8 = (pb.take 8 ++ t).take (pb.take 8).length := by rw [h]
    _ = pb.take 8 := List.take_left _ _

/-- Any address built as the prefix address first-8 bytes plus an arbitrary
tail is contained in the (valid, at-most-64-bit) prefix. -/
theorem c10_core (p : Cidr) (pb t : List Nat) (hpb : p.addr = GoAddr.v6 pb)
    (hlen : pb.length = 16) (hval : p.isValid = true) (hb : p.bits ≤ 64) :
    ((p.addr.as16).take 8 ++ t).take 8 = (p.addr.as16).take 8 ∧
    cidrContains p (GoAddr.v6 ((p.addr.as16).take 8 ++ t)) = true := by
  have has : p.addr.as16 = pb := by rw [hpb]; rfl
  constructor
  · rw [has]
    exact take8_append pb t hlen
  · unfold cidrContains
    rw [hval]
    rw [if_neg (by simp)]
    rw [hpb] at has ⊢
    show maskedEqBytes pb _ p.bits.toNat = true
    apply maskedEq_of_take8 pb _ _ hlen
    · rw [has]
      exact take8_append pb t hlen
    · omega

/-- **C10** Implicit prefix invariant: for a configuration accepted by
`Validate` (with the `netip` well-formedness fact that the prefix address is
a 16-byte IPv6 address), the prefix length is positive and at most 64 bits,
and every virtual address produced at the public interface — by
`WireguardPublicKeyToIPAndURLs` for any key and version, and by
`HostnameToWireguardIP` for any label it accepts — has its first 8 bytes
equal to the first 8 bytes of the network prefix address and is contained in
the configured prefix. -/
theorem C10_prefix_invariant (o0 o : Options) (pb : List Nat)
    (h : validateOptions (some o0) = .ok o)
    (hpb : o.WireguardNetworkCidr.addr = GoAddr.v6 pb)
    (hlen : pb.length = 16) :
    0 < o.WireguardNetworkCidr.bits ∧ o.WireguardNetworkCidr.bits ≤ 64 ∧
    (∀ (pk : List Nat) (v : Int),
      ((WireguardPublicKeyToIPAndURLs o pk v).1).take 8 =
        (o.WireguardNetworkCidr.addr.as16).take 8 ∧
      cidrContains o.WireguardNetworkCidr
        (GoAddr.v6 (WireguardPublicKeyToIPAndURLs o pk v).1) = true) ∧
    (∀ hostname ip : List Nat, HostnameToWireguardIP o hostname = .ok ip →
      ip.take 8 = (o.WireguardNetworkCidr.addr.as16).take 8 ∧
      cidrContains o.WireguardNetworkCidr (GoAddr.v6 ip) = true) := by
  obtain ⟨hb1, hb2, hb3, hc⟩ := validateOptions_bits o0 o h
  have hval : o.WireguardNetworkCidr.isValid = true := by
    by_contra hv
    rw [Bool.not_eq_true] at hv
    unfold cidrContains at hc
    rw [hv] at hc
    simp at hc
  refine ⟨hb1, hb2, ?_, ?_⟩
  · intro pk v
    have hfst : (WireguardPublicKeyToIPAndURLs o pk v).1 =
        (o.WireguardNetworkCidr.addr.as16).take 8 ++ (sha256 pk).take 8 := rfl
    rw [hfst]
    exact c10_core o.WireguardNetworkCidr pb _ hpb hlen hval hb2
  · intro hostname ip hok
    have hex : ∃ t, ip = (o.WireguardNetworkCidr.addr.as16).take 8 ++ t := by
      unfold HostnameToWireguardIP at hok
      split at hok
      · cases hd : hexDecode hostname with
        | none =>
          rw [hd] at hok
          exact absurd hok (by simp)
        | some decoded =>
          rw [hd] at hok
          dsimp only at hok
          split at hok
          · exact absurd hok (by simp)
          · injection hok with h2
            exact ⟨_, h2.symm⟩
      · cases hd : b32decode (upperStr hostname) with
        | none =>
          rw [hd] at hok
          exact absurd hok (by simp)
        | some decoded =>
          rw [hd] at hok
          dsimp only at hok
          split at hok
          · exact absurd hok (by simp)
          · injection hok with h2
            exact ⟨_, h2.symm⟩
    obtain ⟨t, rfl⟩ := hex
    exact c10_core o.WireguardNetworkCidr pb t hpb hlen hval hb2

theorem C10_prefix_invariant_witness :
    HostnameToWireguardIP (validatedRecord testOpts) (strBytes "4mh8kgpei4ak6") =
      .ok [252, 202, 0, 0, 0, 0, 0, 0, 37, 162, 138, 67, 46, 145, 21, 67] ∧
    cidrContains (validatedRecord testOpts).WireguardNetworkCidr
      (GoAddr.v6 [252, 202, 0, 0, 0, 0, 0, 0, 37, 162, 138, 67, 46, 145, 21, 67]) = true :=
  ⟨rfl,
   ((C10_prefix_invariant testOpts (validatedRecord testOpts)
      [252, 202, 0, 0, 0, 0, 0, 0, 0, 0, 0, 0, 0, 0, 0, 0]
      rfl (by decide) (by decide)).2.2.2
      (strBytes "4mh8kgpei4ak6")
      [252, 202, 0, 0, 0, 0, 0, 0, 37, 162, 138, 67, 46, 145, 21, 67]
      rfl).2⟩
